import Mathlib

/-!
Verification of the json2yaml converter (src/json2yaml.py).

The development shallowly embeds the program:

* the JSON value tree (the sole intermediate representation of the program)
  as the inductive type `Json`;
* the PyYAML serialization step and the corresponding YAML decoding, which
  are third-party library code not contained in this repository, are
  modelled from the spec (block/flow formatting is serializer-default and
  not independently specified; the contract is only that decoding the
  output yields an equal value tree), as the executable pair
  `yaml_dump` / `yaml_decode`;
* filesystem paths as `Path` (parent directory components plus final
  component), with `Path.suffix` and `Path.with_suffix` translated from
  the CPython pathlib semantics used by the program;
* the filesystem as an association list from paths to entries, and the
  the stateful functions of the program (`load_json_file`, `write_yaml_file`,
  `write_yaml_file_if_not_exists_and_not_forced`, `App.json_to_yaml`,
  `App.run_source`, `App.run_sources`, `App.run_streams`, `App.run`,
  `main`) as explicit state-passing functions over it, with Python
  exceptions as an `Except` whose error also carries the state at the
  point the exception escaped.

JSON parsing (`json.load`) is standard-library code outside the
repository; the development is parametric in it (`jload`).
-/

namespace Json2Yaml

/-- The JSON value tree: mappings with string keys, sequences, strings,
integer and floating-point numbers, booleans, null.  Floating-point
numbers are modelled as decimal scientific notation (mantissa and
exponent), which is how they occur in JSON text; binary IEEE rounding is
outside the model. -/
inductive Json where
  | null
  | bool (b : Bool)
  | int (n : Int)
  | float (mantissa : Int) (exponent : Int)
  | str (s : String)
  | arr (items : List Json)
  | obj (members : List (String × Json))

/-- The character for a single decimal digit. -/
def digitChar (d : Nat) : Char := Char.ofNat (48 + d)

/-- The numeric value of a decimal digit character. -/
def digitVal (c : Char) : Nat := c.toNat - 48

/-- Decimal notation of a natural number, most significant digit first. -/
def emitNat (n : Nat) : List Char :=
  if n = 0 then ['0'] else ((Nat.digits 10 n).map digitChar).reverse

/-- Decimal notation of an integer. -/
def emitInt (m : Int) : List Char :=
  if m < 0 then '-' :: emitNat m.natAbs else emitNat m.natAbs

/-- Escaping of one character inside a double-quoted scalar. -/
def escChar (c : Char) : List Char :=
  if c = '"' ∨ c = '\\' then ['\\', c] else [c]

/-- Escaping of a string body inside a double-quoted scalar. -/
def escape : List Char → List Char
  | [] => []
  | c :: cs => escChar c ++ escape cs

mutual

/-- Modelled from the spec: the YAML serialization of a value tree
performed by the PyYAML `yaml.dump` call in `write_yaml_file` and
`App.run_streams`.  PyYAML itself is not part of this repository and its
exact formatting is serializer-default and not independently specified;
this model emits a YAML-flow-style document over which the decoding
contract of the spec can be stated and proved. -/
def emit : Json → List Char
  | Json.null => ['n', 'u', 'l', 'l']
  | Json.bool true => ['t', 'r', 'u', 'e']
  | Json.bool false => ['f', 'a', 'l', 's', 'e']
  | Json.int m => emitInt m
  | Json.float m e => emitInt m ++ 'e' :: emitInt e
  | Json.str s => '"' :: (escape s.data ++ ['"'])
  | Json.arr items => '[' :: emitItems items
  | Json.obj members => '\x7b' :: emitMembers members

/-- The items of a sequence, comma separated, with the closing bracket. -/
def emitItems : List Json → List Char
  | [] => [']']
  | [v] => emit v ++ [']']
  | v :: vs => emit v ++ ',' :: emitItems vs

/-- The members of a mapping, comma separated, with the closing brace. -/
def emitMembers : List (String × Json) → List Char
  | [] => ['\x7d']
  | [kv] => emitMember kv ++ ['\x7d']
  | kv :: kvs => emitMember kv ++ ',' :: emitMembers kvs

/-- One key/value member of a mapping. -/
def emitMember : String × Json → List Char
  | (k, v) => '"' :: (escape k.data ++ '"' :: ':' :: emit v)

end

mutual

/-- Fuel measure of a value for the decoder. -/
def jsize : Json → Nat
  | Json.arr items => 1 + isize items
  | Json.obj members => 1 + msize members
  | _ => 1

/-- Fuel measure of sequence items. -/
def isize : List Json → Nat
  | [] => 0
  | v :: vs => 1 + jsize v + isize vs

/-- Fuel measure of mapping members. -/
def msize : List (String × Json) → Nat
  | [] => 0
  | kv :: kvs => 1 + jsize kv.2 + msize kvs

end

/-- Greedily take leading decimal digits. -/
def takeDigits : List Char → List Char × List Char
  | [] => ([], [])
  | c :: cs =>
    if c.isDigit then
      let p := takeDigits cs
      (c :: p.1, p.2)
    else ([], c :: cs)

/-- Numeric value of a digit string, most significant digit first. -/
def digitsToNat (ds : List Char) : Nat :=
  Nat.ofDigits 10 ((ds.map digitVal).reverse)

/-- Decode the digits of an exponent, after its optional minus sign. -/
def expTail (sig : Int) (neg : Bool) (cs : List Char) : Option (Json × List Char) :=
  let p := takeDigits cs
  if p.1.isEmpty then none
  else some (Json.float sig (if neg then -(digitsToNat p.1 : Int) else (digitsToNat p.1 : Int)), p.2)

/-- Decode the exponent part of a float, after the marker. -/
def parseExpTail (sig : Int) (cs : List Char) : Option (Json × List Char) :=
  match cs with
  | [] => none
  | c :: r => if c = '-' then expTail sig true r else expTail sig false (c :: r)

/-- Continue a number after its integral digits: either a float exponent
marker follows, or the number is an integer. -/
def afterDigits (sn : Int) (rest : List Char) : Option (Json × List Char) :=
  match rest with
  | [] => some (Json.int sn, [])
  | c :: r => if c = 'e' then parseExpTail sn r else some (Json.int sn, c :: r)

/-- Decode a number (integer or float), after an optional leading minus. -/
def parseNumber (neg : Bool) (cs : List Char) : Option (Json × List Char) :=
  let p := takeDigits cs
  if p.1.isEmpty then none
  else afterDigits (if neg then -(digitsToNat p.1 : Int) else (digitsToNat p.1 : Int)) p.2

/-- Decode the body of a double-quoted scalar after the opening quote,
undoing `escape`; returns the body and the input after the closing
quote. -/
def parseStrChars : List Char → Option (List Char × List Char)
  | [] => none
  | c :: rest =>
    if c = '"' then some ([], rest)
    else if c = '\\' then
      match rest with
      | [] => none
      | c2 :: rest2 => (parseStrChars rest2).map (fun p => (c2 :: p.1, p.2))
    else (parseStrChars rest).map (fun p => (c :: p.1, p.2))

/-- Expect the given literal characters at the head of the input. -/
def expectChars : List Char → List Char → Option (List Char)
  | [], cs => some cs
  | _ :: _, [] => none
  | p :: ps, c :: cs => if c = p then expectChars ps cs else none

mutual

/-- Modelled from the spec: YAML decoding of a serialized document, the
inverse direction of the §6 contract ("decoding the YAML output yields a
value tree equal to the original JSON value tree").  Fuel-indexed
recursive descent over the characters. -/
def parseVal : Nat → List Char → Option (Json × List Char)
  | 0, _ => none
  | _ + 1, [] => none
  | fuel + 1, c :: cs =>
    if c = 'n' then (expectChars ['u', 'l', 'l'] cs).map (fun r => (Json.null, r))
    else if c = 't' then (expectChars ['r', 'u', 'e'] cs).map (fun r => (Json.bool true, r))
    else if c = 'f' then (expectChars ['a', 'l', 's', 'e'] cs).map (fun r => (Json.bool false, r))
    else if c = '"' then (parseStrChars cs).map (fun p => (Json.str (String.mk p.1), p.2))
    else if c = '[' then parseArr fuel cs
    else if c = '\x7b' then parseObj fuel cs
    else if c = '-' then parseNumber true cs
    else if c.isDigit then parseNumber false (c :: cs)
    else none
termination_by fuel _ => (fuel, 2)

/-- Decode a sequence after the opening bracket. -/
def parseArr (fuel : Nat) : List Char → Option (Json × List Char)
  | [] => none
  | c :: rest =>
    if c = ']' then some (Json.arr [], rest)
    else (parseItems fuel (c :: rest)).map (fun p => (Json.arr p.1, p.2))
termination_by _ => (fuel, 1)

/-- Decode a mapping after the opening brace. -/
def parseObj (fuel : Nat) : List Char → Option (Json × List Char)
  | [] => none
  | c :: rest =>
    if c = '\x7d' then some (Json.obj [], rest)
    else (parseMembers fuel (c :: rest)).map (fun p => (Json.obj p.1, p.2))
termination_by _ => (fuel, 1)

/-- Decode the items of a nonempty sequence, up to the closing bracket. -/
def parseItems : Nat → List Char → Option (List Json × List Char)
  | 0, _ => none
  | fuel + 1, cs =>
    match parseVal fuel cs with
    | none => none
    | some (v, rest) =>
      match rest with
      | ',' :: r => (parseItems fuel r).map (fun p => (v :: p.1, p.2))
      | ']' :: r => some ([v], r)
      | _ => none
termination_by fuel _ => (fuel, 0)

/-- Decode the members of a nonempty mapping, up to the closing brace. -/
def parseMembers : Nat → List Char → Option (List (String × Json) × List Char)
  | 0, _ => none
  | fuel + 1, cs =>
    match cs with
    | '"' :: cs1 =>
      match parseStrChars cs1 with
      | none => none
      | some (kcs, rest1) =>
        match rest1 with
        | ':' :: rest2 =>
          match parseVal fuel rest2 with
          | none => none
          | some (v, rest) =>
            match rest with
            | ',' :: r => (parseMembers fuel r).map (fun p => ((String.mk kcs, v) :: p.1, p.2))
            | '\x7d' :: r => some ([(String.mk kcs, v)], r)
            | _ => none
        | _ => none
    | _ => none
termination_by fuel _ => (fuel, 0)

end

/-- Modelled from the spec: `yaml.dump` of a value tree as a string. -/
def yaml_dump (v : Json) : String := String.mk (emit v)

/-- Modelled from the spec: decoding a YAML document produced by the
serializer back into a value tree (the decoding step of the §6
round-trip contract). -/
def yaml_decode (s : String) : Option Json :=
  match parseVal (s.data.length + 1) s.data with
  | some (v, []) => some v
  | _ => none

/-- Whether the head of the remaining input is a legal follower of a
complete value: end of input, a separator, or a closing bracket. -/
def sepHead : List Char → Bool
  | [] => true
  | c :: _ => c = ',' || c = ']' || c = '\x7d'

/-- Whether the input starts with a decimal digit. -/
def headDigit : List Char → Bool
  | [] => false
  | c :: _ => c.isDigit

theorem jsize_pos (v : Json) : 1 ≤ jsize v := by
  cases v <;> simp [jsize]

theorem digitChar_isDigit {d : Nat} (h : d < 10) : (digitChar d).isDigit = true := by
  interval_cases d <;> decide

theorem digitVal_digitChar {d : Nat} (h : d < 10) : digitVal (digitChar d) = d := by
  interval_cases d <;> decide

theorem emitNat_digits (n : Nat) : ∀ c ∈ emitNat n, c.isDigit = true := by
  intro c hc
  unfold emitNat at hc
  by_cases h : n = 0
  · simp [h] at hc
    simp [hc]
  · rw [if_neg h, List.mem_reverse, List.mem_map] at hc
    obtain ⟨d, hd, rfl⟩ := hc
    exact digitChar_isDigit (Nat.digits_lt_base (by norm_num) hd)

theorem emitNat_ne_nil (n : Nat) : emitNat n ≠ [] := by
  unfold emitNat
  by_cases h : n = 0
  · simp [h]
  · rw [if_neg h]
    simp [Nat.digits_ne_nil_iff_ne_zero.mpr h]

theorem emitNat_cons (n : Nat) : ∃ c cs, emitNat n = c :: cs ∧ c.isDigit = true := by
  rcases he : emitNat n with _ | ⟨c, cs⟩
  · exact absurd he (emitNat_ne_nil n)
  · exact ⟨c, cs, rfl, emitNat_digits n c (he ▸ List.mem_cons_self c cs)⟩

theorem digitsToNat_emitNat (n : Nat) : digitsToNat (emitNat n) = n := by
  unfold digitsToNat emitNat
  by_cases h : n = 0
  · simp [h]
    decide
  · rw [if_neg h, List.map_reverse, List.reverse_reverse]
    have : (Nat.digits 10 n).map (fun d => digitVal (digitChar d)) = Nat.digits 10 n := by
      apply List.map_congr_left ?_ |>.trans (List.map_id _)
      intro d hd
      exact digitVal_digitChar (Nat.digits_lt_base (by norm_num) hd)
    rw [List.map_map] at *
    rw [show (digitVal ∘ digitChar) = (fun d => digitVal (digitChar d)) from rfl, this]
    exact Nat.ofDigits_digits 10 n

theorem takeDigits_append (ds rest : List Char)
    (hds : ∀ c ∈ ds, c.isDigit = true) (hrest : headDigit rest = false) :
    takeDigits (ds ++ rest) = (ds, rest) := by
  induction ds with
  | nil =>
    cases rest with
    | nil => rfl
    | cons c cs =>
      simp [headDigit] at hrest
      simp [takeDigits, hrest]
  | cons d ds ih =>
    have hd := hds d (List.mem_cons_self d ds)
    have h2 := ih (fun c hc => hds c (List.mem_cons_of_mem d hc))
    simp only [List.cons_append, takeDigits, hd, if_true, List.append_eq, h2]

theorem takeDigits_emitNat (n : Nat) (rest : List Char) (h : headDigit rest = false) :
    takeDigits (emitNat n ++ rest) = (emitNat n, rest) :=
  takeDigits_append (emitNat n) rest (emitNat_digits n) h

theorem sepHead_not_digit {rest : List Char} (h : sepHead rest = true) :
    headDigit rest = false := by
  cases rest with
  | nil => rfl
  | cons c cs =>
    simp [sepHead] at h
    rcases h with (rfl | rfl) | rfl <;> rfl

theorem isDigit_not_special {c : Char} (h : c.isDigit = true) :
    c ≠ 'n' ∧ c ≠ 't' ∧ c ≠ 'f' ∧ c ≠ '"' ∧ c ≠ '[' ∧ c ≠ '\x7b' ∧ c ≠ '-' ∧
      c ≠ ']' ∧ c ≠ '\x7d' ∧ c ≠ ',' ∧ c ≠ 'e' := by
  refine ⟨?_, ?_, ?_, ?_, ?_, ?_, ?_, ?_, ?_, ?_, ?_⟩ <;>
    (intro hc; rw [hc] at h; exact absurd h (by decide))

/-- Decoding the digits of a natural number followed by a non-digit,
non-marker tail yields the integer branch. -/
theorem emitNat_isEmpty (n : Nat) : (emitNat n).isEmpty = false := by
  obtain ⟨c, cs, hc, _⟩ := emitNat_cons n
  rw [hc]
  rfl

theorem parseNumber_emitNat (neg : Bool) (n : Nat) (rest : List Char)
    (hd : headDigit rest = false) (he : ∀ r, rest ≠ 'e' :: r) :
    parseNumber neg (emitNat n ++ rest)
      = some (Json.int (if neg then -(n : Int) else (n : Int)), rest) := by
  unfold parseNumber
  rw [takeDigits_emitNat n rest hd]
  simp only [emitNat_isEmpty, Bool.false_eq_true, if_false, digitsToNat_emitNat]
  cases rest with
  | nil => rfl
  | cons c r =>
    have hce : c ≠ 'e' := fun hc => he r (by rw [hc])
    simp [afterDigits, hce]

/-- Decoding digits, the exponent marker, and an exponent yields the
float branch. -/
theorem parseNumber_emitFloat (neg : Bool) (n : Nat) (e : Int) (rest : List Char)
    (hd : headDigit rest = false) :
    parseNumber neg (emitNat n ++ 'e' :: (emitInt e ++ rest))
      = some (Json.float (if neg then -(n : Int) else (n : Int)) e, rest) := by
  unfold parseNumber
  rw [takeDigits_emitNat n ('e' :: (emitInt e ++ rest)) rfl]
  simp only [emitNat_isEmpty, Bool.false_eq_true, if_false, digitsToNat_emitNat]
  simp only [afterDigits, if_true]
  unfold emitInt
  by_cases hneg : e < 0
  · rw [if_pos hneg]
    show parseExpTail _ ('-' :: (emitNat e.natAbs ++ rest)) = _
    simp only [parseExpTail, if_true]
    unfold expTail
    rw [takeDigits_emitNat e.natAbs rest hd]
    simp only [emitNat_isEmpty, Bool.false_eq_true, if_false, digitsToNat_emitNat, if_true]
    have hval : -(e.natAbs : Int) = e := by omega
    rw [hval]
  · rw [if_neg hneg]
    obtain ⟨c, cs, hc, hdig⟩ := emitNat_cons e.natAbs
    have hnm : c ≠ '-' := (isDigit_not_special hdig).2.2.2.2.2.2.1
    rw [hc]
    show parseExpTail _ (c :: (cs ++ rest)) = _
    simp only [parseExpTail]
    rw [if_neg hnm, show c :: (cs ++ rest) = (c :: cs) ++ rest from rfl, ← hc]
    unfold expTail
    rw [takeDigits_emitNat e.natAbs rest hd]
    simp only [emitNat_isEmpty, Bool.false_eq_true, if_false, digitsToNat_emitNat]
    have hval : (e.natAbs : Int) = e := by omega
    rw [hval]

theorem sepHead_ne_e {rest : List Char} (h : sepHead rest = true) :
    ∀ r, rest ≠ 'e' :: r := by
  intro r hr
  rw [hr] at h
  simp [sepHead] at h

theorem parseStrChars_escape (s rest : List Char) :
    parseStrChars (escape s ++ '"' :: rest) = some (s, rest) := by
  induction s with
  | nil =>
    rw [show escape [] ++ '"' :: rest = '"' :: rest from rfl, parseStrChars.eq_def]
    simp
  | cons c cs ih =>
    by_cases h : c = '"' ∨ c = '\\'
    · rw [show escape (c :: cs) ++ '"' :: rest = '\\' :: c :: (escape cs ++ '"' :: rest) by
        simp [escape, escChar, h]]
      rw [parseStrChars.eq_def]
      simp [ih]
    · obtain ⟨h1, h2⟩ := not_or.mp h
      rw [show escape (c :: cs) ++ '"' :: rest = c :: (escape cs ++ '"' :: rest) by
        simp [escape, escChar, h]]
      rw [parseStrChars.eq_def]
      simp [h1, h2, ih]

theorem expectChars_append (ps rest : List Char) :
    expectChars ps (ps ++ rest) = some rest := by
  induction ps with
  | nil => rfl
  | cons p ps ih => simp [expectChars, ih]

/-- Every emitted value is nonempty and starts with a character other
than a closing bracket, closing brace, comma or colon. -/
theorem emit_cons (v : Json) :
    ∃ c cs, emit v = c :: cs ∧ c ≠ ']' ∧ c ≠ '\x7d' := by
  cases v with
  | null => exact ⟨'n', ['u', 'l', 'l'], by rw [emit], by decide, by decide⟩
  | bool b =>
    cases b with
    | true => exact ⟨'t', ['r', 'u', 'e'], by rw [emit], by decide, by decide⟩
    | false => exact ⟨'f', ['a', 'l', 's', 'e'], by rw [emit], by decide, by decide⟩
  | int m =>
    by_cases hm : m < 0
    · refine ⟨'-', emitNat m.natAbs, ?_, by decide, by decide⟩
      rw [emit]
      unfold emitInt
      rw [if_pos hm]
    · obtain ⟨c, cs, hc, hdig⟩ := emitNat_cons m.natAbs
      have h := isDigit_not_special hdig
      refine ⟨c, cs, ?_, h.2.2.2.2.2.2.2.1, h.2.2.2.2.2.2.2.2.1⟩
      rw [emit]
      unfold emitInt
      rw [if_neg hm, hc]
  | float m e =>
    by_cases hm : m < 0
    · refine ⟨'-', emitNat m.natAbs ++ 'e' :: emitInt e, ?_, by decide, by decide⟩
      rw [emit]
      unfold emitInt
      rw [if_pos hm]
      rfl
    · obtain ⟨c, cs, hc, hdig⟩ := emitNat_cons m.natAbs
      have h := isDigit_not_special hdig
      refine ⟨c, cs ++ 'e' :: emitInt e, ?_, h.2.2.2.2.2.2.2.1, h.2.2.2.2.2.2.2.2.1⟩
      rw [emit]
      unfold emitInt
      rw [if_neg hm, hc]
      rfl
  | str s => exact ⟨'"', escape s.data ++ ['"'], by rw [emit], by decide, by decide⟩
  | arr items => exact ⟨'[', emitItems items, by rw [emit], by decide, by decide⟩
  | obj members => exact ⟨'\x7b', emitMembers members, by rw [emit], by decide, by decide⟩

theorem stringMk_data (s : String) : String.mk s.data = s := by
  cases s
  rfl

theorem expectChars_nil (cs : List Char) : expectChars [] cs = some cs := by
  rw [expectChars.eq_def]

theorem expectChars_cons (p : Char) (ps : List Char) (c : Char) (cs : List Char) :
    expectChars (p :: ps) (c :: cs) = if c = p then expectChars ps cs else none := by
  rw [expectChars.eq_def]

theorem parseVal_minus (fuel : Nat) (cs : List Char) :
    parseVal (fuel + 1) ('-' :: cs) = parseNumber true cs := by
  simp [parseVal]

theorem parseVal_digit (fuel : Nat) (c : Char) (cs : List Char) (hdig : c.isDigit = true) :
    parseVal (fuel + 1) (c :: cs) = parseNumber false (c :: cs) := by
  have h := isDigit_not_special hdig
  simp [parseVal, h.1, h.2.1, h.2.2.1, h.2.2.2.1, h.2.2.2.2.1, h.2.2.2.2.2.1,
    h.2.2.2.2.2.2.1, hdig]

theorem parseVal_emitInt (fuel : Nat) (m : Int) (rest : List Char)
    (hd : headDigit rest = false) (he : ∀ r, rest ≠ 'e' :: r) :
    parseVal (fuel + 1) (emitInt m ++ rest) = some (Json.int m, rest) := by
  unfold emitInt
  by_cases hm : m < 0
  · rw [if_pos hm, List.cons_append, parseVal_minus,
      parseNumber_emitNat true m.natAbs rest hd he]
    simp only [if_true]
    have hval : -(m.natAbs : Int) = m := by omega
    rw [hval]
  · rw [if_neg hm]
    obtain ⟨c, cs, hc, hdig⟩ := emitNat_cons m.natAbs
    rw [hc, List.cons_append, parseVal_digit fuel c _ hdig, ← List.cons_append, ← hc,
      parseNumber_emitNat false m.natAbs rest hd he]
    simp only [Bool.false_eq_true, if_false]
    have hval : (m.natAbs : Int) = m := by omega
    rw [hval]

theorem parseVal_emitFloat (fuel : Nat) (m e : Int) (rest : List Char)
    (hd : headDigit rest = false) :
    parseVal (fuel + 1) ((emitInt m ++ 'e' :: emitInt e) ++ rest)
      = some (Json.float m e, rest) := by
  rw [List.append_assoc, List.cons_append]
  by_cases hm : m < 0
  · rw [show emitInt m = '-' :: emitNat m.natAbs from by unfold emitInt; rw [if_pos hm]]
    rw [List.cons_append, parseVal_minus, parseNumber_emitFloat true m.natAbs e rest hd]
    simp only [if_true]
    have hval : -(m.natAbs : Int) = m := by omega
    rw [hval]
  · obtain ⟨c, cs, hc, hdig⟩ := emitNat_cons m.natAbs
    rw [show emitInt m = emitNat m.natAbs from by unfold emitInt; rw [if_neg hm]]
    rw [hc, List.cons_append, parseVal_digit fuel c _ hdig, ← List.cons_append, ← hc,
      parseNumber_emitFloat false m.natAbs e rest hd]
    simp only [Bool.false_eq_true, if_false]
    have hval : (m.natAbs : Int) = m := by omega
    rw [hval]

theorem emitItems_decomp (x : Json) (xs : List Json) :
    ∃ T, emitItems (x :: xs) = emit x ++ T := by
  cases xs with
  | nil => exact ⟨[']'], by rw [emitItems]⟩
  | cons y ys => exact ⟨',' :: emitItems (y :: ys), by rw [emitItems]; simp⟩

theorem parseArr_routes (fuel : Nat) (x : Json) (xs : List Json) (rest : List Char) :
    parseArr fuel (emitItems (x :: xs) ++ rest)
      = (parseItems fuel (emitItems (x :: xs) ++ rest)).map (fun p => (Json.arr p.1, p.2)) := by
  obtain ⟨c, cs, hc, hc1, hc2⟩ := emit_cons x
  obtain ⟨T, hT⟩ := emitItems_decomp x xs
  rw [hT, hc]
  simp only [List.cons_append, List.append_assoc]
  simp [parseArr, hc1]

theorem emitMembers_decomp (kv : String × Json) (kvs : List (String × Json)) :
    ∃ T, emitMembers (kv :: kvs) = emitMember kv ++ T := by
  cases kvs with
  | nil => exact ⟨['\x7d'], by rw [emitMembers]⟩
  | cons kv2 kvs2 => exact ⟨',' :: emitMembers (kv2 :: kvs2), by rw [emitMembers]; simp⟩

theorem parseObj_routes (fuel : Nat) (kv : String × Json) (kvs : List (String × Json))
    (rest : List Char) :
    parseObj fuel (emitMembers (kv :: kvs) ++ rest)
      = (parseMembers fuel (emitMembers (kv :: kvs) ++ rest)).map
          (fun p => (Json.obj p.1, p.2)) := by
  obtain ⟨k, v⟩ := kv
  obtain ⟨T, hT⟩ := emitMembers_decomp (k, v) kvs
  rw [hT]
  rw [show emitMember (k, v) = '"' :: (escape k.data ++ '"' :: ':' :: emit v) from by
    rw [emitMember]]
  simp only [List.cons_append, List.append_assoc]
  simp [parseObj]

/-- The decoder inverts the serializer: the mutual induction over fuel
covering values, sequence items and mapping members. -/
theorem parse_emit (fuel : Nat) :
    (∀ v rest, jsize v ≤ fuel → sepHead rest = true →
        parseVal fuel (emit v ++ rest) = some (v, rest)) ∧
    (∀ x xs rest, isize (x :: xs) ≤ fuel → sepHead rest = true →
        parseItems fuel (emitItems (x :: xs) ++ rest) = some (x :: xs, rest)) ∧
    (∀ kv kvs rest, msize (kv :: kvs) ≤ fuel → sepHead rest = true →
        parseMembers fuel (emitMembers (kv :: kvs) ++ rest) = some (kv :: kvs, rest)) := by
  induction fuel with
  | zero =>
    refine ⟨fun v rest h _ => absurd h (by have := jsize_pos v; omega),
            fun x xs rest h _ => absurd h (by simp [isize]),
            fun kv kvs rest h _ => absurd h (by simp [msize])⟩
  | succ f ih =>
    obtain ⟨ih1, ih2, ih3⟩ := ih
    refine ⟨?_, ?_, ?_⟩
    · intro v rest hsz hsep
      cases v with
      | null =>
        rw [show emit Json.null ++ rest = 'n' :: (['u', 'l', 'l'] ++ rest) from rfl]
        simp [parseVal, expectChars_nil, expectChars_cons]
      | bool b =>
        cases b with
        | true =>
          rw [show emit (Json.bool true) ++ rest = 't' :: (['r', 'u', 'e'] ++ rest) from rfl]
          simp [parseVal, expectChars_nil, expectChars_cons]
        | false =>
          rw [show emit (Json.bool false) ++ rest
              = 'f' :: (['a', 'l', 's', 'e'] ++ rest) from rfl]
          simp [parseVal, expectChars_nil, expectChars_cons]
      | int m =>
        rw [show emit (Json.int m) = emitInt m from by rw [emit]]
        exact parseVal_emitInt f m rest (sepHead_not_digit hsep) (sepHead_ne_e hsep)
      | float m e =>
        rw [show emit (Json.float m e) = emitInt m ++ 'e' :: emitInt e from by rw [emit]]
        exact parseVal_emitFloat f m e rest (sepHead_not_digit hsep)
      | str s =>
        rw [show emit (Json.str s) ++ rest = '"' :: (escape s.data ++ '"' :: rest) from by
          rw [emit]; simp]
        simp [parseVal, parseStrChars_escape, stringMk_data]
      | arr items =>
        cases items with
        | nil =>
          rw [show emit (Json.arr []) ++ rest = '[' :: (']' :: rest) from by
            rw [emit, emitItems]
            rfl]
          simp [parseVal, parseArr]
        | cons x xs =>
          rw [show emit (Json.arr (x :: xs)) ++ rest
              = '[' :: (emitItems (x :: xs) ++ rest) from by rw [emit]; simp]
          have hsz2 : isize (x :: xs) ≤ f := by
            rw [jsize] at hsz
            omega
          have hroute : parseVal (f + 1) ('[' :: (emitItems (x :: xs) ++ rest))
              = parseArr f (emitItems (x :: xs) ++ rest) := by
            simp [parseVal]
          rw [hroute, parseArr_routes, ih2 x xs rest hsz2 hsep]
          rfl
      | obj members =>
        cases members with
        | nil =>
          rw [show emit (Json.obj []) ++ rest = '\x7b' :: ('\x7d' :: rest) from by
            rw [emit, emitMembers]
            rfl]
          simp [parseVal, parseObj]
        | cons kv kvs =>
          rw [show emit (Json.obj (kv :: kvs)) ++ rest
              = '\x7b' :: (emitMembers (kv :: kvs) ++ rest) from by rw [emit]; simp]
          have hsz2 : msize (kv :: kvs) ≤ f := by
            rw [jsize] at hsz
            omega
          have hroute : parseVal (f + 1) ('\x7b' :: (emitMembers (kv :: kvs) ++ rest))
              = parseObj f (emitMembers (kv :: kvs) ++ rest) := by
            simp [parseVal]
          rw [hroute, parseObj_routes, ih3 kv kvs rest hsz2 hsep]
          rfl
    · intro x xs rest hsz hsep
      cases xs with
      | nil =>
        have hx := ih1 x (']' :: rest) (by simp [isize] at hsz; omega) (by simp [sepHead])
        rw [show emitItems [x] ++ rest = emit x ++ (']' :: rest) from by
          rw [emitItems]; simp]
        simp [parseItems, hx]
      | cons y ys =>
        have hx := ih1 x (',' :: (emitItems (y :: ys) ++ rest))
          (by simp [isize] at hsz; omega) (by simp [sepHead])
        have hys := ih2 y ys rest (by simp [isize] at hsz ⊢; omega) hsep
        rw [show emitItems (x :: y :: ys) ++ rest
            = emit x ++ (',' :: (emitItems (y :: ys) ++ rest)) from by
          rw [emitItems] <;> simp]
        simp [parseItems, hx, hys]
    · intro kv kvs rest hsz hsep
      obtain ⟨k, v⟩ := kv
      cases kvs with
      | nil =>
        have hv := ih1 v ('\x7d' :: rest) (by simp [msize] at hsz; omega) (by simp [sepHead])
        rw [show emitMembers [(k, v)] ++ rest
            = '"' :: (escape k.data ++ '"' :: ':' :: (emit v ++ ('\x7d' :: rest))) from by
          rw [emitMembers, emitMember]; simp]
        simp [parseMembers, parseStrChars_escape, hv, stringMk_data]
      | cons kv2 kvs2 =>
        have hv := ih1 v (',' :: (emitMembers (kv2 :: kvs2) ++ rest))
          (by simp [msize] at hsz; omega) (by simp [sepHead])
        have hkvs := ih3 kv2 kvs2 rest (by simp [msize] at hsz ⊢; omega) hsep
        rw [show emitMembers ((k, v) :: kv2 :: kvs2) ++ rest
            = '"' :: (escape k.data ++ '"' :: ':' ::
                (emit v ++ (',' :: (emitMembers (kv2 :: kvs2) ++ rest)))) from by
          rw [emitMembers, emitMember] <;> simp]
        simp [parseMembers, parseStrChars_escape, hv, hkvs, stringMk_data]

/-- The fuel measure of a value is bounded by the length of its
serialization, so the default fuel of the decoder always suffices. -/
theorem size_le_emit (n : Nat) :
    (∀ v, jsize v ≤ n → jsize v ≤ (emit v).length) ∧
    (∀ vs, isize vs ≤ n → isize vs ≤ (emitItems vs).length) ∧
    (∀ kvs, msize kvs ≤ n → msize kvs ≤ (emitMembers kvs).length) := by
  induction n with
  | zero =>
    refine ⟨fun v h => absurd h (by have := jsize_pos v; omega), ?_, ?_⟩
    · intro vs h
      cases vs with
      | nil => simp [isize, emitItems]
      | cons x xs => exact absurd h (by simp [isize])
    · intro kvs h
      cases kvs with
      | nil => simp [msize, emitMembers]
      | cons kv kvs2 => exact absurd h (by simp [msize])
  | succ n ih =>
    obtain ⟨ih1, ih2, ih3⟩ := ih
    refine ⟨?_, ?_, ?_⟩
    · intro v hv
      cases v with
      | null => simp [emit, jsize]
      | bool b => cases b <;> simp [emit, jsize]
      | int m =>
        obtain ⟨c, cs, hc, _⟩ := emitNat_cons m.natAbs
        by_cases hm : m < 0 <;> simp [emit, jsize, emitInt, hm, hc]
      | float m e =>
        obtain ⟨c, cs, hc, _⟩ := emitNat_cons m.natAbs
        by_cases hm : m < 0 <;> simp [emit, jsize, emitInt, hm, hc]
      | str s => simp [emit, jsize]
      | arr items =>
        have h2 := ih2 items (by rw [jsize] at hv; omega)
        rw [jsize, emit]
        simp
        omega
      | obj members =>
        have h3 := ih3 members (by rw [jsize] at hv; omega)
        rw [jsize, emit]
        simp
        omega
    · intro vs hvs
      cases vs with
      | nil => simp [isize, emitItems]
      | cons x xs =>
        rw [isize] at hvs
        cases xs with
        | nil =>
          have h1 := ih1 x (by omega)
          rw [isize, isize, emitItems]
          simp
          omega
        | cons y ys =>
          have h1 := ih1 x (by omega)
          have h2 := ih2 (y :: ys) (by omega)
          rw [isize]
          rw [emitItems] <;> simp
          omega
    · intro kvs hkvs
      cases kvs with
      | nil => simp [msize, emitMembers]
      | cons kv kvs2 =>
        obtain ⟨k, v⟩ := kv
        rw [msize] at hkvs
        have hmem : (emitMember (k, v)).length = (escape k.data).length + 3 + (emit v).length := by
          rw [emitMember]
          simp
          omega
        cases kvs2 with
        | nil =>
          have h1 := ih1 v (by simp at hkvs; omega)
          rw [msize, msize, emitMembers]
          simp [hmem]
          simp at hkvs
          omega
        | cons kv2 kvs3 =>
          have h1 := ih1 v (by simp at hkvs; omega)
          have h3 := ih3 (kv2 :: kvs3) (by simp at hkvs; omega)
          rw [msize]
          rw [emitMembers] <;> simp [hmem]
          omega

theorem sepHead_nil : sepHead [] = true := rfl

/-- The serializer/decoder round trip on whole documents. -/
theorem yaml_decode_yaml_dump (v : Json) : yaml_decode (yaml_dump v) = some v := by
  unfold yaml_dump yaml_decode
  have hdata : (String.mk (emit v)).data = emit v := rfl
  rw [hdata]
  have hsz : jsize v ≤ (emit v).length + 1 := by
    have := (size_le_emit (jsize v)).1 v le_rfl
    omega
  have h1 := (parse_emit ((emit v).length + 1)).1 v [] hsz sepHead_nil
  rw [List.append_nil] at h1
  rw [h1]

/-! Filesystem paths, modelled as the components of the parent directory plus
the final component, mirroring `pathlib.Path` as used by the program. -/

structure Path where
  parent : List String
  name : String
deriving DecidableEq

/-- Index of the last dot in a name, if any. -/
def rIdx : List Char → Option Nat
  | [] => none
  | c :: rest =>
    match rIdx rest with
    | some i => some (i + 1)
    | none => if c = '.' then some 0 else none

/-- The extension of a final component: the CPython `PurePath.suffix` takes
the name from its last dot when that dot is neither the first nor the
last character, and is empty otherwise. -/
def suffixChars (cs : List Char) : List Char :=
  match rIdx cs with
  | some i => if 0 < i ∧ i < cs.length - 1 then cs.drop i else []
  | none => []

/-- Embedding of `pathlib.Path.suffix` for the embedded path. -/
def Path.suffix (p : Path) : String := String.mk (suffixChars p.name.data)

/-- Embedding of `pathlib.Path.with_suffix`: replace the suffix of the final component
(or append, when the name has no suffix); the parent directory is kept. -/
def Path.with_suffix (p : Path) (suf : String) : Path :=
  let old := suffixChars p.name.data
  let base :=
    if old.isEmpty then p.name.data
    else p.name.data.take (p.name.data.length - old.length)
  ⟨p.parent, String.mk (base ++ suf.data)⟩

/-- A filesystem entry: a regular file with its byte content, or a
directory. -/
inductive Entry where
  | file (content : String)
  | dir
deriving DecidableEq

/-- The filesystem: an association list from paths to entries. -/
abbrev FS := List (Path × Entry)

/-- Look up the entry at a path. -/
def lookupFS (fs : FS) (p : Path) : Option Entry :=
  (fs.find? (fun e => e.1 = p)).map (·.2)

/-- Write a regular file at a path, replacing any existing entry there
(the effect of opening for write and dumping the content). -/
def setFS : FS → Path → String → FS
  | [], p, c => [(p, Entry.file c)]
  | (q, e) :: rest, p, c =>
    if q = p then (p, Entry.file c) :: rest else (q, e) :: setFS rest p c

/-- Embedding of `Path.is_file`: true when the path exists as a regular file. -/
def isFile (fs : FS) (p : Path) : Bool :=
  match lookupFS fs p with
  | some (Entry.file _) => true
  | _ => false

/-- Embedding of `Path.is_dir`: true when the path exists as a directory. -/
def isDir (fs : FS) (p : Path) : Bool :=
  match lookupFS fs p with
  | some Entry.dir => true
  | _ => false

/-- Embedding of the glob call over the pattern `*.json`: the immediate entries of the directory whose
final component matches the pattern, i.e. whose name ends in `.json`
(files and directories alike); non-recursive. -/
def childrenJson (fs : FS) (p : Path) : List Path :=
  (fs.filter (fun e =>
    decide (e.1.parent = p.parent ++ [p.name]) && List.isSuffixOf ".json".data e.1.name.data)).map
    (·.1)

/-- File open modes used by the program: `wt` (truncate or create) and
`xt` (exclusive creation, failing when the path exists). -/
inductive Mode where
  | wt
  | xt
deriving DecidableEq

/-- Log events, one per `logging` call in the program, tagged by call
site and severity. -/
inductive LogEvent where
  | debugOpenRead (p : Path)
  | debugOpenWrite (p : Path) (m : Mode)
  | debugData (d : Json)
  | debugProcessing (p : Path)
  | infoConverting (src dest : Path)
  | infoForcing
  | warnExists (p : Path)
  | warnWrongExt (p : Path)
  | warnForceNoEffect
  | errorApp (p : Path)

/-- Python exceptions that can escape the modelled calls. -/
inductive PyErr where
  | fileExists
  | jsonDecode
  | notFound
  | isADir
  | appError (p : Path)

/-- Program state in file-tree mode: the filesystem and the log. -/
structure St where
  fs : FS
  log : List LogEvent

/-- Append a log event. -/
def addLog (e : LogEvent) (s : St) : St := { s with log := s.log ++ [e] }

/-- The state carried by a result, whether normal or exceptional. -/
def outSt : Except (PyErr × St) St → St
  | .ok s => s
  | .error (_, s) => s

section Program

variable (jload : String → Option Json)

/-- Embedding of `load_json_file`: log, open the source for binary reading, parse its
content as JSON.  A missing path raises `FileNotFoundError`, a directory
raises `IsADirectoryError`, malformed content raises
`json.JSONDecodeError`; none of these are caught here. -/
def load_json_file (source : Path) (s : St) : Except (PyErr × St) (Json × St) :=
  let s := addLog (.debugOpenRead source) s
  match lookupFS s.fs source with
  | some (Entry.file c) =>
    match jload c with
    | some v => .ok (v, s)
    | none => .error (.jsonDecode, s)
  | some Entry.dir => .error (.isADir, s)
  | none => .error (.notFound, s)

/-- Embedding of `write_yaml_file`: log, open the destination with the given mode and
dump the YAML serialization of the data.  Mode `xt` fails with
`FileExistsError` when the destination exists; mode `wt` truncates or
creates, failing only when the destination is a directory. -/
def write_yaml_file (destination : Path) (data : Json) (mode : Mode) (s : St) :
    Except (PyErr × St) St :=
  let s := addLog (.debugOpenWrite destination mode) s
  match mode with
  | Mode.wt =>
    match lookupFS s.fs destination with
    | some Entry.dir => .error (.isADir, s)
    | _ => .ok { s with fs := setFS s.fs destination (yaml_dump data) }
  | Mode.xt =>
    match lookupFS s.fs destination with
    | some _ => .error (.fileExists, s)
    | none => .ok { s with fs := setFS s.fs destination (yaml_dump data) }

/-- Embedding of `write_yaml_file_if_not_exists_and_not_forced`: choose mode `wt` under
`--force` and mode `xt` otherwise, and downgrade `FileExistsError` to a
warning and success. -/
def write_yaml_file_if_not_exists_and_not_forced (data : Json) (destination : Path)
    (force : Bool) (s : St) : Except (PyErr × St) St :=
  let mode := if force then Mode.wt else Mode.xt
  match write_yaml_file destination data mode s with
  | .error (.fileExists, s1) => .ok (addLog (.warnExists destination) s1)
  | r => r

/-- Embedding of `App.json_to_yaml`: skip sources without a `.json` suffix with a
warning; otherwise derive the sibling `.yaml` destination, read and
parse the source, and write the destination under the overwrite
policy. -/
def json_to_yaml (force : Bool) (source : Path) (s : St) : Except (PyErr × St) St :=
  if source.suffix = ".json" then
    let destination := source.with_suffix ".yaml"
    let s := addLog (.infoConverting source destination) s
    match load_json_file jload source s with
    | .error e => .error e
    | .ok (data, s1) =>
      let s2 := addLog (.debugData data) s1
      write_yaml_file_if_not_exists_and_not_forced data destination force s2
  else
    .ok (addLog (.warnWrongExt source) s)

/-- Skip branch: a source whose suffix is not `.json` only produces a
warning; nothing is read, parsed or written. -/
theorem json_to_yaml_skip (force : Bool) (source : Path) (s : St)
    (hsuf : source.suffix ≠ ".json") :
    json_to_yaml jload force source s = .ok (addLog (.warnWrongExt source) s) := by
  simp [json_to_yaml, hsuf]

/-- Forced write branch: with `--force`, a readable `.json` source whose
derived destination is not a directory is always written. -/
theorem json_to_yaml_force (source : Path) (s : St) (c : String) (v : Json)
    (hsuf : source.suffix = ".json")
    (hsrc : lookupFS s.fs source = some (Entry.file c))
    (hj : jload c = some v)
    (hdest : lookupFS s.fs (source.with_suffix ".yaml") ≠ some Entry.dir) :
    json_to_yaml jload true source s
      = .ok { fs := setFS s.fs (source.with_suffix ".yaml") (yaml_dump v),
              log := s.log ++ [.infoConverting source (source.with_suffix ".yaml"),
                .debugOpenRead source, .debugData v,
                .debugOpenWrite (source.with_suffix ".yaml") Mode.wt] } := by
  rw [json_to_yaml, if_pos hsuf]
  unfold load_json_file
  simp only [addLog, hsrc, hj]
  unfold write_yaml_file_if_not_exists_and_not_forced
  simp only [if_true]
  unfold write_yaml_file
  simp only [addLog]
  rcases hld : lookupFS s.fs (source.with_suffix ".yaml") with _ | e
  · simp [hld]
  · cases e with
    | file c2 => simp [hld]
    | dir => exact absurd hld hdest

/-- Exclusive-create branch, destination absent: without `--force`, a
readable `.json` source with no existing destination is written through
an exclusive-create open. -/
theorem json_to_yaml_xt_new (source : Path) (s : St) (c : String) (v : Json)
    (hsuf : source.suffix = ".json")
    (hsrc : lookupFS s.fs source = some (Entry.file c))
    (hj : jload c = some v)
    (hdest : lookupFS s.fs (source.with_suffix ".yaml") = none) :
    json_to_yaml jload false source s
      = .ok { fs := setFS s.fs (source.with_suffix ".yaml") (yaml_dump v),
              log := s.log ++ [.infoConverting source (source.with_suffix ".yaml"),
                .debugOpenRead source, .debugData v,
                .debugOpenWrite (source.with_suffix ".yaml") Mode.xt] } := by
  rw [json_to_yaml, if_pos hsuf]
  unfold load_json_file
  simp only [addLog, hsrc, hj]
  unfold write_yaml_file_if_not_exists_and_not_forced
  simp only [Bool.false_eq_true, if_false]
  unfold write_yaml_file
  simp only [addLog, hdest]
  simp

/-- Exclusive-create branch, destination present: without `--force`, an
existing destination makes the exclusive-create open fail with
`FileExistsError`, which is downgraded to a warning and success; the
filesystem is unchanged. -/
theorem json_to_yaml_xt_skip (source : Path) (s : St) (c : String) (v : Json) (e : Entry)
    (hsuf : source.suffix = ".json")
    (hsrc : lookupFS s.fs source = some (Entry.file c))
    (hj : jload c = some v)
    (hdest : lookupFS s.fs (source.with_suffix ".yaml") = some e) :
    json_to_yaml jload false source s
      = .ok { fs := s.fs,
              log := s.log ++ [.infoConverting source (source.with_suffix ".yaml"),
                .debugOpenRead source, .debugData v,
                .debugOpenWrite (source.with_suffix ".yaml") Mode.xt,
                .warnExists (source.with_suffix ".yaml")] } := by
  rw [json_to_yaml, if_pos hsuf]
  unfold load_json_file
  simp only [addLog, hsrc, hj]
  unfold write_yaml_file_if_not_exists_and_not_forced
  simp only [Bool.false_eq_true, if_false]
  unfold write_yaml_file
  simp only [addLog, hdest]
  simp

/-- The resulting filesystem of a per-file conversion, on every path
(success, skip or escaped exception): either unchanged, or updated at
exactly the derived destination. -/
theorem json_to_yaml_fs_cases (force : Bool) (source : Path) (s : St) :
    (outSt (json_to_yaml jload force source s)).fs = s.fs ∨
    (source.suffix = ".json" ∧
      ∃ d, (outSt (json_to_yaml jload force source s)).fs
        = setFS s.fs (source.with_suffix ".yaml") d) := by
  by_cases hsuf : source.suffix = ".json"
  · rw [json_to_yaml, if_pos hsuf]
    unfold load_json_file
    simp only [addLog]
    rcases hl : lookupFS s.fs source with _ | e
    · left
      simp [hl, outSt]
    · cases e with
      | dir => left; simp [hl, outSt]
      | file c =>
        rcases hj : jload c with _ | v
        · left
          simp [hl, hj, outSt]
        · simp only [hl, hj]
          unfold write_yaml_file_if_not_exists_and_not_forced write_yaml_file
          simp only [addLog]
          cases force with
          | true =>
            simp only [if_true]
            rcases hld : lookupFS s.fs (source.with_suffix ".yaml") with _ | e2
            · right
              exact ⟨hsuf, yaml_dump v, by simp [hld, outSt]⟩
            · cases e2 with
              | file c2 => right; exact ⟨hsuf, yaml_dump v, by simp [hld, outSt]⟩
              | dir => left; simp [hld, outSt]
          | false =>
            simp only [Bool.false_eq_true, if_false]
            rcases hld : lookupFS s.fs (source.with_suffix ".yaml") with _ | e2
            · right
              exact ⟨hsuf, yaml_dump v, by simp [hld, outSt]⟩
            · left
              simp [hld, outSt]
  · rw [json_to_yaml_skip jload force source s hsuf]
    left
    simp [outSt, addLog]

end Program

/-- The written destination keeps the directory of the source: the output is a
sibling of the source. -/
theorem with_suffix_parent (p : Path) (suf : String) : (p.with_suffix suf).parent = p.parent := rfl

theorem setFS_keys (fs : FS) (p : Path) (c : String) :
    ∀ e ∈ setFS fs p c, e.1 = p ∨ e ∈ fs := by
  induction fs with
  | nil =>
    intro e he
    simp [setFS] at he
    simp [he]
  | cons hd tl ih =>
    intro e he
    simp only [setFS] at he
    by_cases h : hd.1 = p
    · rw [if_pos h] at he
      rcases List.mem_cons.mp he with h1 | h1
      · left
        rw [h1]
      · right
        exact List.mem_cons_of_mem _ h1
    · rw [if_neg h] at he
      rcases List.mem_cons.mp he with h1 | h1
      · right
        rw [h1]
        exact List.mem_cons_self _ _
      · rcases ih e h1 with h2 | h2
        · left
          exact h2
        · right
          exact List.mem_cons_of_mem _ h2

/-- Writing a file makes it present at its path. -/
theorem lookupFS_setFS_self (fs : FS) (p : Path) (c : String) :
    lookupFS (setFS fs p c) p = some (Entry.file c) := by
  induction fs with
  | nil => simp [setFS, lookupFS]
  | cons hd tl ih =>
    by_cases h : hd.1 = p
    · simp [setFS, h, lookupFS]
    · simp only [setFS, if_neg h]
      simp only [lookupFS] at ih ⊢
      rw [List.find?_cons_of_neg _ (by simp [h])]
      exact ih

/-- Writing a file leaves every other path untouched. -/
theorem lookupFS_setFS_ne (fs : FS) (p q : Path) (c : String) (hne : q ≠ p) :
    lookupFS (setFS fs p c) q = lookupFS fs q := by
  induction fs with
  | nil =>
    simp only [setFS, lookupFS]
    rw [List.find?_cons_of_neg _ (by simp; exact fun hh => hne hh.symm)]
  | cons hd tl ih =>
    by_cases h : hd.1 = p
    · simp only [setFS, if_pos h, lookupFS]
      by_cases h2 : hd.1 = q
      · exact absurd (h2.symm.trans h) hne
      · rw [List.find?_cons_of_neg _ (by simp; exact fun hh => hne hh.symm),
          List.find?_cons_of_neg _ (by simp [h2])]
    · simp only [setFS, if_neg h, lookupFS] at ih ⊢
      by_cases h2 : hd.1 = q
      · rw [List.find?_cons_of_pos _ (by simp [h2]), List.find?_cons_of_pos _ (by simp [h2])]
      · rw [List.find?_cons_of_neg _ (by simp [h2]), List.find?_cons_of_neg _ (by simp [h2])]
        exact ih

/-- Point lookup after a write: the written path holds the new file and
every other path is untouched. -/
theorem lookupFS_setFS (fs : FS) (p q : Path) (c : String) :
    lookupFS (setFS fs p c) q
      = if q = p then some (Entry.file c) else lookupFS fs q := by
  by_cases h : q = p
  · subst h
    rw [if_pos rfl]
    exact lookupFS_setFS_self fs q c
  · rw [if_neg h]
    exact lookupFS_setFS_ne fs p q c h

/-- Bound on the nesting depth of every entry of a filesystem. -/
abbrev BoundedFS (N : Nat) (fs : FS) : Prop :=
  ∀ e ∈ fs, e.1.parent.length ≤ N

theorem childrenJson_parent (fs : FS) (p : Path) :
    ∀ q ∈ childrenJson fs p, q.parent = p.parent ++ [p.name] := by
  intro q hq
  simp only [childrenJson, List.mem_map, List.mem_filter] at hq
  obtain ⟨e, ⟨_, he⟩, rfl⟩ := hq
  exact of_decide_eq_true (Bool.and_elim_left he)

theorem childrenJson_mem (fs : FS) (p : Path) :
    ∀ q ∈ childrenJson fs p, ∃ e ∈ fs, e.1 = q := by
  intro q hq
  simp only [childrenJson, List.mem_map, List.mem_filter] at hq
  obtain ⟨e, ⟨hmem, _⟩, rfl⟩ := hq
  exact ⟨e, hmem, rfl⟩

theorem isDir_mem (fs : FS) (p : Path) (h : isDir fs p = true) :
    ∃ e ∈ fs, e.1 = p := by
  simp only [isDir] at h
  rcases hl : lookupFS fs p with _ | e
  · rw [hl] at h
    simp at h
  · simp only [lookupFS, Option.map_eq_some'] at hl
    obtain ⟨a, ha, _⟩ := hl
    have hpa := List.find?_some ha
    simp at hpa
    exact ⟨a, List.mem_of_find?_eq_some ha, hpa⟩

section Runner

variable (jload : String → Option Json)

theorem json_to_yaml_bounded (N : Nat) (force : Bool) (source : Path) (s : St)
    (hB : BoundedFS N s.fs) (hsrc : source.parent.length ≤ N) :
    BoundedFS N (outSt (json_to_yaml jload force source s)).fs := by
  rcases json_to_yaml_fs_cases jload force source s with h | ⟨_, d, h⟩
  · rw [h]
    exact hB
  · rw [h]
    intro e he
    rcases setFS_keys s.fs (source.with_suffix ".yaml") d e he with h1 | h1
    · rw [h1, with_suffix_parent]
      exact hsrc
    · exact hB e h1

theorem json_to_yaml_bounded_ok (N : Nat) (force : Bool) (source : Path) (s s1 : St)
    (hB : BoundedFS N s.fs) (hsrc : source.parent.length ≤ N)
    (h : json_to_yaml jload force source s = .ok s1) : BoundedFS N s1.fs := by
  have := json_to_yaml_bounded jload N force source s hB hsrc
  rw [h] at this
  exact this

/-- A state known to respect the depth bound. -/
abbrev StB (N : Nat) := { s : St // BoundedFS N s.fs }

mutual

/-- Embedding of `App.run_source`: a file source is converted; a directory source has
its immediate `*.json`-matching entries (as computed by `glob`) processed
in turn, each one re-dispatched through `App.run_source` itself; any
other source raises `AppError`. -/
def run_source (N : Nat) (force : Bool) (p : Path) (hp : p.parent.length ≤ N) (s : StB N) :
    Except (PyErr × St) (StB N) :=
  if isFile s.1.fs p then
    match h : json_to_yaml jload force p s.1 with
    | .ok s1 => .ok ⟨s1, json_to_yaml_bounded_ok jload N force p s.1 s1 s.2 hp h⟩
    | .error e => .error e
  else if hd : isDir s.1.fs p then
    run_list N force (p.parent.length + 1) (childrenJson s.1.fs p)
      (fun q hq => by rw [childrenJson_parent s.1.fs p q hq]; simp)
      (fun q hq => by
        obtain ⟨e, he, heq⟩ := childrenJson_mem s.1.fs p q hq
        rw [← heq]
        exact s.2 e he) s
  else
    .error (.appError p, s.1)
termination_by (N + 1 - p.parent.length, 0, 0)
decreasing_by
  · simp [Prod.lex_def]
    obtain ⟨e, he, heq⟩ := isDir_mem s.1.fs p hd
    have := s.2 e he
    rw [heq] at this
    omega

/-- The glob loop body of `App.run_source`: process each
globbed entry in order through `App.run_source`, stopping at the first
escaped exception. -/
def run_list (N : Nat) (force : Bool) (d : Nat) (qs : List Path)
    (hqs : ∀ q ∈ qs, q.parent.length = d)
    (hqN : ∀ q ∈ qs, q.parent.length ≤ N) (s : StB N) :
    Except (PyErr × St) (StB N) :=
  match qs with
  | [] => .ok s
  | q :: rest =>
    match run_source N force q (hqN q (List.mem_cons_self _ _)) s with
    | .ok s1 => run_list N force d rest (fun x hx => hqs x (List.mem_cons_of_mem _ hx))
        (fun x hx => hqN x (List.mem_cons_of_mem _ hx)) s1
    | .error e => .error e
termination_by (N + 1 - d, 1, qs.length)
decreasing_by
  · simp [Prod.lex_def]
    have := hqs q (List.mem_cons_self _ _)
    omega
  · simp [Prod.lex_def]

end

/-- The loop of `App.run_sources`: process each top-level argument in
order, logging it first; an exception escaping `run_source` aborts the
loop. -/
def run_sources_loop (N : Nat) (force : Bool) (ps : List Path)
    (hps : ∀ p ∈ ps, p.parent.length ≤ N) (s : StB N) : Except (PyErr × St) (StB N) :=
  match ps with
  | [] => .ok s
  | p :: rest =>
    match run_source jload N force p (hps p (List.mem_cons_self _ _))
        ⟨addLog (.debugProcessing p) s.1, s.2⟩ with
    | .ok s2 => run_sources_loop N force rest
        (fun x hx => hps x (List.mem_cons_of_mem _ hx)) s2
    | .error e => .error e

end Runner

/-- A depth bound covering the argument list and the whole filesystem,
used only to drive the recursion of `run_source`. -/
def boundN (ps : List Path) (fs : FS) : Nat :=
  ((ps.map (fun p => p.parent.length)) ++ (fs.map (fun e => e.1.parent.length))).foldr max 0

theorem le_foldr_max (l : List Nat) (x : Nat) (hx : x ∈ l) : x ≤ l.foldr max 0 := by
  induction l with
  | nil => simp at hx
  | cons a l ih =>
    rcases List.mem_cons.mp hx with rfl | h
    · exact Nat.le_max_left _ _
    · exact le_trans (ih h) (Nat.le_max_right _ _)

theorem boundN_sources (ps : List Path) (fs : FS) :
    ∀ p ∈ ps, p.parent.length ≤ boundN ps fs := by
  intro p hp
  exact le_foldr_max _ _ (by simp only [List.mem_append, List.mem_map]; exact Or.inl ⟨p, hp, rfl⟩)

theorem boundN_bounded (ps : List Path) (fs : FS) : BoundedFS (boundN ps fs) fs := by
  intro e he
  exact le_foldr_max _ _ (by simp only [List.mem_append, List.mem_map]; exact Or.inr ⟨e, he, rfl⟩)

section TopLevel

variable (jload : String → Option Json)

/-- Embedding of `App.run_sources`: log once under `--force`, then run the loop over
the top-level arguments. -/
def run_sources (force : Bool) (ps : List Path) (s : St) : Except (PyErr × St) St :=
  let s1 := if force then addLog .infoForcing s else s
  match run_sources_loop jload (boundN ps s1.fs) force ps (boundN_sources ps s1.fs)
      ⟨s1, boundN_bounded ps s1.fs⟩ with
  | .ok s2 => .ok s2.1
  | .error e => .error e

/-- The whole process state: the filesystem, the log, and the standard
streams.  File-tree mode never touches the streams and stream mode never
touches the filesystem, which the embedding of `App.run` makes plain,
mirroring that `run_sources` contains no stream operation and
`run_streams` no file operation. -/
structure World where
  fs : FS
  log : List LogEvent
  stdinData : String
  stdinRead : Bool
  stdout : String

/-- Append a log event at the process level. -/
def addLogW (e : LogEvent) (w : World) : World := { w with log := w.log ++ [e] }

/-- The process state carried by a result, normal or exceptional. -/
def outW : Except (PyErr × World) World → World
  | .ok w => w
  | .error (_, w) => w

/-- Embedding of `App.run_streams`: warn that `--force` has no effect here, read one
JSON document from standard input (malformed input raises uncaught), and
dump its YAML serialization to standard output.  No file is touched. -/
def run_streams (force : Bool) (w : World) : Except (PyErr × World) World :=
  let w1 := if force then addLogW .warnForceNoEffect w else w
  let w2 := { w1 with stdinRead := true }
  match jload w2.stdinData with
  | none => .error (.jsonDecode, w2)
  | some v =>
    let w3 := addLogW (.debugData v) w2
    .ok { w3 with stdout := w3.stdout ++ yaml_dump v }

/-- Embedding of `App.run`: file-tree mode when at least one source argument was
given, stream mode otherwise. -/
def App.run (force : Bool) (sources : List Path) (w : World) :
    Except (PyErr × World) World :=
  if sources.length > 0 then
    match run_sources jload force sources ⟨w.fs, w.log⟩ with
    | .ok s => .ok { w with fs := s.fs, log := s.log }
    | .error (e, s) => .error (e, { w with fs := s.fs, log := s.log })
  else
    run_streams jload force w

/-- Embedding of `main` after argument parsing: run the app, catching only `AppError`
(logged as an error, after which `main` returns normally and the process
exits with status 0); any other exception escapes `main` and makes the
interpreter exit with status 1. -/
def main (force : Bool) (sources : List Path) (w : World) : Nat × World :=
  match App.run jload force sources w with
  | .ok w1 => (0, w1)
  | .error (.appError p, w1) => (0, addLogW (.errorApp p) w1)
  | .error (_, w1) => (1, w1)

end TopLevel

theorem stringMk_append (a b : List Char) :
    String.mk (a ++ b) = String.mk a ++ String.mk b := rfl

/-- A `.json` suffix decomposes the name into a stem and the extension,
and `with_suffix` applied to `.yaml` keeps the stem and replaces the extension. -/
theorem suffix_json_decomp (p : Path) (h : p.suffix = ".json") :
    ∃ stem : String,
      p.name = stem ++ ".json" ∧ (p.with_suffix ".yaml").name = stem ++ ".yaml" := by
  have hchars : suffixChars p.name.data = ".json".data := by
    have := congrArg String.data h
    simpa [Path.suffix] using this
  obtain ⟨i, hi, hcond, hdrop⟩ :
      ∃ i, rIdx p.name.data = some i ∧ (0 < i ∧ i < p.name.data.length - 1) ∧
        p.name.data.drop i = ".json".data := by
    unfold suffixChars at hchars
    split at hchars
    · split at hchars
      · next i heq hcond => exact ⟨i, heq, hcond, hchars⟩
      · exact absurd hchars (by decide)
    · exact absurd hchars (by decide)
  have hlen5 : (".json".data).length = 5 := by decide
  have hlen : i = p.name.data.length - 5 := by
    have h1 := congrArg List.length hdrop
    rw [List.length_drop, hlen5] at h1
    omega
  refine ⟨String.mk (p.name.data.take i), ?_, ?_⟩
  · rw [show (".json" : String) = String.mk ".json".data from rfl, ← stringMk_append,
      ← hdrop, List.take_append_drop]
  · unfold Path.with_suffix
    simp only [hchars]
    rw [if_neg (by decide)]
    rw [show (".yaml" : String) = String.mk ".yaml".data from rfl, ← stringMk_append]
    rw [show p.name.data.length - (".json".data).length = i by omega]

/-- The derived destination differs from the source: replacing `.json`
by `.yaml` changes the final component. -/
theorem source_ne_dest (p : Path) (h : p.suffix = ".json") :
    p ≠ p.with_suffix ".yaml" := by
  obtain ⟨stem, h1, h2⟩ := suffix_json_decomp p h
  intro heq
  have hn : p.name = (p.with_suffix ".yaml").name := by rw [← heq]
  rw [h1, h2] at hn
  have hdata := congrArg String.data hn
  simp only [show ∀ t : String, (stem ++ t).data = stem.data ++ t.data from fun t => rfl] at hdata
  have hc := List.append_cancel_left hdata
  exact absurd (congrArg String.mk hc) (by decide)

/-- A directory path is not a file path. -/
theorem isDir_not_isFile (fs : FS) (p : Path) (h : isDir fs p = true) :
    isFile fs p = false := by
  unfold isDir at h
  unfold isFile
  rcases hl : lookupFS fs p with _ | e
  · simp [hl] at h
  · cases e with
    | file c => simp [hl] at h
    | dir => simp [hl]

/-- Every glob result has a name matching the `*.json` pattern. -/
theorem childrenJson_endswith (fs : FS) (p : Path) :
    ∀ q ∈ childrenJson fs p, List.isSuffixOf ".json".data q.name.data = true := by
  intro q hq
  simp only [childrenJson, List.mem_map, List.mem_filter] at hq
  obtain ⟨e, ⟨_, he⟩, rfl⟩ := hq
  exact Bool.and_elim_right he

/-- A name matching `*.json` is never a name produced by replacing a
suffix with `.yaml`. -/
theorem json_name_ne_yaml_dest (q x : Path) (hq : List.isSuffixOf ".json".data q.name.data = true)
    (hx : x.suffix = ".json") : q ≠ x.with_suffix ".yaml" := by
  obtain ⟨stem, _, h2⟩ := suffix_json_decomp x hx
  intro heq
  have hname : q.name = stem ++ ".yaml" := by rw [heq, h2]
  rw [List.isSuffixOf_iff_suffix] at hq
  obtain ⟨t, ht⟩ := hq
  have hdata : q.name.data = stem.data ++ ".yaml".data := by
    rw [hname]
    rfl
  rw [hdata] at ht
  have hlast := congrArg List.getLast? ht
  rw [List.getLast?_append, List.getLast?_append] at hlast
  rw [show Option.or (List.getLast? ".json".data) t.getLast? = some 'n' from rfl,
    show Option.or (List.getLast? ".yaml".data) stem.data.getLast? = some 'l' from rfl] at hlast
  exact absurd hlast (by decide)

/-- The name `.json` alone (empty stem) has an empty suffix. -/
theorem dotjson_suffix (p : Path) (h : p.name = ".json") : p.suffix = "" := by
  unfold Path.suffix
  rw [h]
  decide

section FrameLemmas

variable (jload : String → Option Json)

/-- A per-file conversion leaves every path other than the derived
destination untouched, on every outcome. -/
theorem json_to_yaml_frame_ne (force : Bool) (source : Path) (s : St) (r : Path)
    (hne : r ≠ source.with_suffix ".yaml") :
    lookupFS (outSt (json_to_yaml jload force source s)).fs r = lookupFS s.fs r := by
  rcases json_to_yaml_fs_cases jload force source s with h | ⟨_, d, h⟩
  · rw [h]
  · rw [h, lookupFS_setFS, if_neg hne]

/-- A per-file conversion leaves every path outside the directory of the
source untouched, on every outcome. -/
theorem json_to_yaml_frame_parent (force : Bool) (source : Path) (s : St) (r : Path)
    (hr : r.parent ≠ source.parent) :
    lookupFS (outSt (json_to_yaml jload force source s)).fs r = lookupFS s.fs r := by
  refine json_to_yaml_frame_ne jload force source s r (fun he => hr ?_)
  rw [he, with_suffix_parent]

/-- A per-file conversion leaves every path whose name matches `*.json`
untouched (written destinations always end in `.yaml`). -/
theorem json_to_yaml_frame_json (force : Bool) (source : Path) (s : St) (r : Path)
    (hr : List.isSuffixOf ".json".data r.name.data = true) :
    lookupFS (outSt (json_to_yaml jload force source s)).fs r = lookupFS s.fs r := by
  rcases json_to_yaml_fs_cases jload force source s with h | ⟨hsuf, d, h⟩
  · rw [h]
  · rw [h, lookupFS_setFS, if_neg (json_name_ne_yaml_dest r source hr hsuf)]

/-- Error branch: missing source raises `FileNotFoundError`. -/
theorem json_to_yaml_notFound (force : Bool) (source : Path) (s : St)
    (hsuf : source.suffix = ".json") (hsrc : lookupFS s.fs source = none) :
    json_to_yaml jload force source s
      = .error (.notFound,
          { fs := s.fs, log := s.log ++ [.infoConverting source (source.with_suffix ".yaml"),
              .debugOpenRead source] }) := by
  rw [json_to_yaml, if_pos hsuf]
  unfold load_json_file
  simp only [addLog, hsrc]
  simp

/-- Error branch: a directory source raises `IsADirectoryError`. -/
theorem json_to_yaml_srcDir (force : Bool) (source : Path) (s : St)
    (hsuf : source.suffix = ".json") (hsrc : lookupFS s.fs source = some Entry.dir) :
    json_to_yaml jload force source s
      = .error (.isADir,
          { fs := s.fs, log := s.log ++ [.infoConverting source (source.with_suffix ".yaml"),
              .debugOpenRead source] }) := by
  rw [json_to_yaml, if_pos hsuf]
  unfold load_json_file
  simp only [addLog, hsrc]
  simp

/-- Error branch: malformed JSON raises `json.JSONDecodeError`, uncaught
by the per-file logic. -/
theorem json_to_yaml_badJson (force : Bool) (source : Path) (s : St) (c : String)
    (hsuf : source.suffix = ".json") (hsrc : lookupFS s.fs source = some (Entry.file c))
    (hj : jload c = none) :
    json_to_yaml jload force source s
      = .error (.jsonDecode,
          { fs := s.fs, log := s.log ++ [.infoConverting source (source.with_suffix ".yaml"),
              .debugOpenRead source] }) := by
  rw [json_to_yaml, if_pos hsuf]
  unfold load_json_file
  simp only [addLog, hsrc, hj]
  simp

/-- Error branch: with `--force`, a destination that exists as a
directory makes the truncating open raise `IsADirectoryError`. -/
theorem json_to_yaml_destDir (source : Path) (s : St) (c : String) (v : Json)
    (hsuf : source.suffix = ".json") (hsrc : lookupFS s.fs source = some (Entry.file c))
    (hj : jload c = some v)
    (hdest : lookupFS s.fs (source.with_suffix ".yaml") = some Entry.dir) :
    json_to_yaml jload true source s
      = .error (.isADir,
          { fs := s.fs, log := s.log ++ [.infoConverting source (source.with_suffix ".yaml"),
              .debugOpenRead source, .debugData v,
              .debugOpenWrite (source.with_suffix ".yaml") Mode.wt] }) := by
  rw [json_to_yaml, if_pos hsuf]
  unfold load_json_file
  simp only [addLog, hsrc, hj]
  unfold write_yaml_file_if_not_exists_and_not_forced
  simp only [if_true]
  unfold write_yaml_file
  simp only [addLog, hdest]
  simp

/-- Every file-open-for-write the per-file conversion performs targets
the derived `.yaml` destination. -/
theorem json_to_yaml_writes (force : Bool) (source : Path) (s : St) :
    ∀ p m, LogEvent.debugOpenWrite p m ∈ (outSt (json_to_yaml jload force source s)).log →
      LogEvent.debugOpenWrite p m ∈ s.log ∨ p = source.with_suffix ".yaml" := by
  intro p m hm
  by_cases hsuf : source.suffix = ".json"
  · rcases hl : lookupFS s.fs source with _ | e
    · rw [json_to_yaml_notFound jload force source s hsuf hl] at hm
      simp [outSt] at hm
      tauto
    · cases e with
      | dir =>
        rw [json_to_yaml_srcDir jload force source s hsuf hl] at hm
        simp [outSt] at hm
        tauto
      | file c =>
        rcases hj : jload c with _ | v
        · rw [json_to_yaml_badJson jload force source s c hsuf hl hj] at hm
          simp [outSt] at hm
          tauto
        · cases force with
          | true =>
            rcases hld : lookupFS s.fs (source.with_suffix ".yaml") with _ | e2
            · rw [json_to_yaml_force jload source s c v hsuf hl hj (by rw [hld]; simp)] at hm
              simp [outSt] at hm
              tauto
            · cases e2 with
              | file c2 =>
                rw [json_to_yaml_force jload source s c v hsuf hl hj (by rw [hld]; simp)] at hm
                simp [outSt] at hm
                tauto
              | dir =>
                rw [json_to_yaml_destDir jload source s c v hsuf hl hj hld] at hm
                simp [outSt] at hm
                tauto
          | false =>
            rcases hld : lookupFS s.fs (source.with_suffix ".yaml") with _ | e2
            · rw [json_to_yaml_xt_new jload source s c v hsuf hl hj hld] at hm
              simp [outSt] at hm
              tauto
            · rw [json_to_yaml_xt_skip jload source s c v e2 hsuf hl hj hld] at hm
              simp [outSt] at hm
              tauto
  · rw [json_to_yaml_skip jload force source s hsuf] at hm
    simp [outSt, addLog] at hm
    tauto

theorem outSt_ok (s : St) : outSt (.ok s) = s := rfl

theorem outSt_error (e : PyErr) (s : St) : outSt (.error (e, s)) = s := rfl

/-- On a file source, `run_source` behaves exactly as the per-file
converter. -/
theorem run_source_file (N : Nat) (force : Bool) (q : Path) (hq : q.parent.length ≤ N)
    (s : StB N) (hfq : isFile s.1.fs q = true) :
    (run_source jload N force q hq s).map Subtype.val = json_to_yaml jload force q s.1 := by
  simp only [run_source, hfq, if_true]
  split
  · next s1 heq =>
    exact heq.symm
  · next e heq =>
    exact heq.symm

/-- On a file source, `run_source` succeeding is the per-file converter
succeeding. -/
theorem run_source_file_ok (N : Nat) (force : Bool) (q : Path) (hq : q.parent.length ≤ N)
    (s : StB N) (s1 : St) (hfq : isFile s.1.fs q = true)
    (hjs : json_to_yaml jload force q s.1 = .ok s1) :
    ∃ hb, run_source jload N force q hq s = .ok ⟨s1, hb⟩ := by
  have h := run_source_file jload N force q hq s hfq
  rw [hjs] at h
  cases hr : run_source jload N force q hq s with
  | ok s2 =>
    rw [hr] at h
    simp [Except.map] at h
    subst h
    exact ⟨s2.2, rfl⟩
  | error e =>
    rw [hr] at h
    simp [Except.map] at h

/-- On a file source, an exception in the per-file converter escapes
`run_source` unchanged. -/
theorem run_source_file_error (N : Nat) (force : Bool) (q : Path) (hq : q.parent.length ≤ N)
    (s : StB N) (e : PyErr × St) (hfq : isFile s.1.fs q = true)
    (hjs : json_to_yaml jload force q s.1 = .error e) :
    run_source jload N force q hq s = .error e := by
  have h := run_source_file jload N force q hq s hfq
  rw [hjs] at h
  cases hr : run_source jload N force q hq s with
  | ok s2 =>
    rw [hr] at h
    simp [Except.map] at h
  | error e2 =>
    rw [hr] at h
    simp [Except.map] at h
    rw [h]

/-- Lookup-equal filesystems agree on file-ness. -/
theorem isFile_congr (fs1 fs2 : FS) (q : Path) (h : lookupFS fs1 q = lookupFS fs2 q) :
    isFile fs1 q = isFile fs2 q := by
  unfold isFile
  rw [h]

/-- Processing a list of sibling file sources (all inside the directory
`P`) touches no path outside `P`, on every outcome. -/
theorem run_list_files_frame (N : Nat) (force : Bool) (d : Nat) (P : List String) :
    ∀ (qs : List Path) (hqs : ∀ q ∈ qs, q.parent.length = d)
      (hqN : ∀ q ∈ qs, q.parent.length ≤ N) (s : StB N),
      (∀ q ∈ qs, q.parent = P) →
      (∀ q ∈ qs, isFile s.1.fs q = true) →
      (∀ q ∈ qs, List.isSuffixOf ".json".data q.name.data = true) →
      ∀ r : Path, r.parent ≠ P →
        lookupFS (outSt ((run_list jload N force d qs hqs hqN s).map Subtype.val)).fs r
          = lookupFS s.1.fs r := by
  intro qs
  induction qs with
  | nil =>
    intro hqs hqN s _ _ _ r hr
    simp [run_list, Except.map, outSt]
  | cons q rest ih =>
    intro hqs hqN s hP hfile hjson r hr
    have hfq : isFile s.1.fs q = true := hfile q (List.mem_cons_self _ _)
    have hPq : q.parent = P := hP q (List.mem_cons_self _ _)
    cases hjs : json_to_yaml jload force q s.1 with
    | ok s1 =>
      have hframe : ∀ r2 : Path, r2.parent ≠ q.parent → lookupFS s1.fs r2 = lookupFS s.1.fs r2 := by
        intro r2 hr2
        have h := json_to_yaml_frame_parent jload force q s.1 r2 hr2
        rw [hjs] at h
        exact h
      have hfr : ∀ q2 : Path, List.isSuffixOf ".json".data q2.name.data = true →
          lookupFS s1.fs q2 = lookupFS s.1.fs q2 := by
        intro q2 hq2
        have h := json_to_yaml_frame_json jload force q s.1 q2 hq2
        rw [hjs] at h
        exact h
      have hres := ih (fun x hx => hqs x (List.mem_cons_of_mem _ hx))
        (fun x hx => hqN x (List.mem_cons_of_mem _ hx))
        ⟨s1, json_to_yaml_bounded_ok jload N force q s.1 s1 s.2
          (hqN q (List.mem_cons_self _ _)) hjs⟩
        (fun x hx => hP x (List.mem_cons_of_mem _ hx))
        (fun x hx => by
          rw [isFile_congr s1.fs s.1.fs x (hfr x (hjson x (List.mem_cons_of_mem _ hx)))]
          exact hfile x (List.mem_cons_of_mem _ hx))
        (fun x hx => hjson x (List.mem_cons_of_mem _ hx)) r hr
      rw [show lookupFS s1.fs r = lookupFS s.1.fs r from hframe r (hPq ▸ hr)] at hres
      obtain ⟨hb, hrs⟩ := run_source_file_ok jload N force q
        (hqN q (List.mem_cons_self _ _)) s s1 hfq hjs
      rw [run_list, hrs]
      exact hres
    | error e =>
      have h := json_to_yaml_frame_parent jload force q s.1 r (hPq ▸ hr)
      rw [hjs, outSt_error] at h
      have hrs := run_source_file_error jload N force q
        (hqN q (List.mem_cons_self _ _)) s e hfq hjs
      rw [run_list, hrs]
      simpa [Except.map, outSt] using h

/-- One-step unfolding of the top-level loop. -/
theorem run_sources_loop_cons (N : Nat) (force : Bool) (p : Path) (ps : List Path)
    (hps : ∀ x ∈ p :: ps, x.parent.length ≤ N) (s : StB N) :
    run_sources_loop jload N force (p :: ps) hps s
      = match run_source jload N force p (hps p (List.mem_cons_self _ _))
          ⟨addLog (.debugProcessing p) s.1, s.2⟩ with
        | .ok s2 => run_sources_loop jload N force ps
            (fun x hx => hps x (List.mem_cons_of_mem _ hx)) s2
        | .error e => .error e := rfl

/-- Splitting the top-level loop at the first invalid argument: once the
arguments before it have been processed, the invalid argument raises
`AppError` and every later argument is abandoned. -/
theorem run_sources_loop_split (N : Nat) (force : Bool) :
    ∀ (pre post : List Path) (bad : Path)
      (hall : ∀ p ∈ pre ++ bad :: post, p.parent.length ≤ N)
      (hpre : ∀ p ∈ pre, p.parent.length ≤ N)
      (s s1 : StB N),
      run_sources_loop jload N force pre hpre s = .ok s1 →
      isFile s1.1.fs bad = false → isDir s1.1.fs bad = false →
      run_sources_loop jload N force (pre ++ bad :: post) hall s
        = .error (.appError bad, addLog (.debugProcessing bad) s1.1) := by
  intro pre
  induction pre with
  | nil =>
    intro post bad hall hpre s s1 h1 hf hd
    simp only [run_sources_loop] at h1
    injection h1 with h2
    subst h2
    simp [run_sources_loop, run_source, addLog, hf, hd]
  | cons p pre2 ih =>
    intro post bad hall hpre s s1 h1 hf hd
    rw [run_sources_loop_cons] at h1
    show run_sources_loop jload N force (p :: (pre2 ++ bad :: post)) hall s
      = Except.error (PyErr.appError bad, addLog (LogEvent.debugProcessing bad) s1.1)
    rw [run_sources_loop_cons]
    rw [show run_source jload N force p
          (hall p (List.mem_cons_self _ _)) ⟨addLog (.debugProcessing p) s.1, s.2⟩
        = run_source jload N force p
          (hpre p (List.mem_cons_self _ _)) ⟨addLog (.debugProcessing p) s.1, s.2⟩ from rfl]
    cases hrs : run_source jload N force p (hpre p (List.mem_cons_self _ _))
        ⟨addLog (.debugProcessing p) s.1, s.2⟩ with
    | ok s2 =>
      rw [hrs] at h1
      exact ih post bad (fun x hx => hall x (List.mem_cons_of_mem _ hx))
        (fun x hx => hpre x (List.mem_cons_of_mem _ hx)) s2 s1 h1 hf hd
    | error e =>
      rw [hrs] at h1
      exact absurd h1 (by simp)

end FrameLemmas

/-! The claim theorems. -/

/-- Claim C1: for every value tree representable in the JSON data model
(mappings with string keys, sequences, strings, integer and
floating-point numbers, booleans, null), serializing it with the
(spec-modelled) YAML serialization step of the program and then decoding the
resulting YAML yields a value tree equal to the original. -/
theorem c1_roundtrip (v : Json) : yaml_decode (yaml_dump v) = some v :=
  yaml_decode_yaml_dump v

/-- Claim C5: a file source whose extension is not exactly `.json`
(case-sensitive) makes the per-file converter a no-op returning without
error: the final state shows only a wrong-extension warning was logged —
the source was never opened or parsed and no destination was created. -/
theorem c5_wrong_extension (jload : String → Option Json) (force : Bool) (source : Path)
    (s : St) (hsuf : source.suffix ≠ ".json") :
    json_to_yaml jload force source s
      = .ok { fs := s.fs, log := s.log ++ [LogEvent.warnWrongExt source] } := by
  rw [json_to_yaml_skip jload force source s hsuf]
  rfl

/-- Witness for C5: a `data.txt` file is skipped untouched. -/
theorem c5_wrong_extension_witness :
    (Path.mk [] "data.txt").suffix ≠ ".json" ∧
    json_to_yaml (fun _ => some Json.null) false ⟨[], "data.txt"⟩
        ⟨[(⟨[], "data.txt"⟩, Entry.file "x")], []⟩
      = .ok { fs := [(⟨[], "data.txt"⟩, Entry.file "x")],
              log := [LogEvent.warnWrongExt ⟨[], "data.txt"⟩] } :=
  ⟨by decide, c5_wrong_extension (fun _ => some Json.null) false ⟨[], "data.txt"⟩
    ⟨[(⟨[], "data.txt"⟩, Entry.file "x")], []⟩ (by decide)⟩

/-- Claim C4: with the force flag, a readable `.json` source with valid
JSON is always written: the destination is exactly the source path with
its extension replaced by `.yaml` in the same directory, it is opened
with the truncating mode `wt`, and it holds the YAML serialization of
the parsed value tree afterwards, even if it already existed (as long as
it is not a directory, which would make the open raise). -/
theorem c4_force_overwrite (jload : String → Option Json) (source : Path) (s : St)
    (c : String) (v : Json)
    (hsuf : source.suffix = ".json")
    (hsrc : lookupFS s.fs source = some (Entry.file c))
    (hj : jload c = some v)
    (hdest : lookupFS s.fs (source.with_suffix ".yaml") ≠ some Entry.dir) :
    ∃ stem : String,
      source.name = stem ++ ".json" ∧
      (source.with_suffix ".yaml").name = stem ++ ".yaml" ∧
      (source.with_suffix ".yaml").parent = source.parent ∧
      json_to_yaml jload true source s
        = .ok { fs := setFS s.fs (source.with_suffix ".yaml") (yaml_dump v),
                log := s.log ++ [LogEvent.infoConverting source (source.with_suffix ".yaml"),
                  LogEvent.debugOpenRead source, LogEvent.debugData v,
                  LogEvent.debugOpenWrite (source.with_suffix ".yaml") Mode.wt] } ∧
      lookupFS (setFS s.fs (source.with_suffix ".yaml") (yaml_dump v))
          (source.with_suffix ".yaml")
        = some (Entry.file (yaml_dump v)) := by
  obtain ⟨stem, h1, h2⟩ := suffix_json_decomp source hsuf
  exact ⟨stem, h1, h2, with_suffix_parent source ".yaml",
    json_to_yaml_force jload source s c v hsuf hsrc hj hdest,
    lookupFS_setFS_self s.fs (source.with_suffix ".yaml") (yaml_dump v)⟩

/-- Witness for C4: forcing re-converts `a.json` over an existing
`a.yaml`. -/
theorem c4_force_overwrite_witness :
    (Path.mk [] "a.json").suffix = ".json" ∧
    lookupFS [(⟨[], "a.json"⟩, Entry.file "j"), (⟨[], "a.yaml"⟩, Entry.file "old")]
        ⟨[], "a.json"⟩ = some (Entry.file "j") ∧
    (∃ stem : String,
      (Path.mk [] "a.json").name = stem ++ ".json" ∧
      ((Path.mk [] "a.json").with_suffix ".yaml").name = stem ++ ".yaml" ∧
      ((Path.mk [] "a.json").with_suffix ".yaml").parent = (Path.mk [] "a.json").parent ∧
      json_to_yaml (fun _ => some Json.null) true ⟨[], "a.json"⟩
          ⟨[(⟨[], "a.json"⟩, Entry.file "j"), (⟨[], "a.yaml"⟩, Entry.file "old")], []⟩
        = .ok { fs := setFS [(⟨[], "a.json"⟩, Entry.file "j"), (⟨[], "a.yaml"⟩, Entry.file "old")]
                  ((Path.mk [] "a.json").with_suffix ".yaml") (yaml_dump Json.null),
                log := [LogEvent.infoConverting ⟨[], "a.json"⟩
                    ((Path.mk [] "a.json").with_suffix ".yaml"),
                  LogEvent.debugOpenRead ⟨[], "a.json"⟩, LogEvent.debugData Json.null,
                  LogEvent.debugOpenWrite ((Path.mk [] "a.json").with_suffix ".yaml") Mode.wt] } ∧
      lookupFS (setFS [(⟨[], "a.json"⟩, Entry.file "j"), (⟨[], "a.yaml"⟩, Entry.file "old")]
          ((Path.mk [] "a.json").with_suffix ".yaml") (yaml_dump Json.null))
          ((Path.mk [] "a.json").with_suffix ".yaml")
        = some (Entry.file (yaml_dump Json.null))) :=
  ⟨by decide, by decide,
    c4_force_overwrite (fun _ => some Json.null) ⟨[], "a.json"⟩
      ⟨[(⟨[], "a.json"⟩, Entry.file "j"), (⟨[], "a.yaml"⟩, Entry.file "old")], []⟩
      "j" Json.null (by decide) (by decide) rfl (by decide)⟩

/-- Claim C3: without the force flag, the destination is opened with the
exclusive-create mode `xt` (failure on existence, not check-then-write);
when the destination already exists this yields success with a skip
warning and an unchanged filesystem; and converting the same input twice
without force writes the file once, the second run changing nothing. -/
theorem c3_skip_policy (jload : String → Option Json) (source : Path) (s : St)
    (c : String) (v : Json)
    (hsuf : source.suffix = ".json")
    (hsrc : lookupFS s.fs source = some (Entry.file c))
    (hj : jload c = some v) :
    (∀ e, lookupFS s.fs (source.with_suffix ".yaml") = some e →
      json_to_yaml jload false source s
        = .ok { fs := s.fs,
                log := s.log ++ [LogEvent.infoConverting source (source.with_suffix ".yaml"),
                  LogEvent.debugOpenRead source, LogEvent.debugData v,
                  LogEvent.debugOpenWrite (source.with_suffix ".yaml") Mode.xt,
                  LogEvent.warnExists (source.with_suffix ".yaml")] }) ∧
    (lookupFS s.fs (source.with_suffix ".yaml") = none →
      ∃ s1, json_to_yaml jload false source s = .ok s1 ∧
        s1.fs = setFS s.fs (source.with_suffix ".yaml") (yaml_dump v) ∧
        json_to_yaml jload false source s1
          = .ok { fs := s1.fs,
                  log := s1.log ++ [LogEvent.infoConverting source (source.with_suffix ".yaml"),
                    LogEvent.debugOpenRead source, LogEvent.debugData v,
                    LogEvent.debugOpenWrite (source.with_suffix ".yaml") Mode.xt,
                    LogEvent.warnExists (source.with_suffix ".yaml")] }) := by
  constructor
  · intro e hdest
    exact json_to_yaml_xt_skip jload source s c v e hsuf hsrc hj hdest
  · intro hdest
    refine ⟨_, json_to_yaml_xt_new jload source s c v hsuf hsrc hj hdest, rfl, ?_⟩
    have hsrc1 : lookupFS (setFS s.fs (source.with_suffix ".yaml") (yaml_dump v)) source
        = some (Entry.file c) := by
      rw [lookupFS_setFS, if_neg (source_ne_dest source hsuf), hsrc]
    have hdest1 : lookupFS (setFS s.fs (source.with_suffix ".yaml") (yaml_dump v))
        (source.with_suffix ".yaml") = some (Entry.file (yaml_dump v)) :=
      lookupFS_setFS_self s.fs (source.with_suffix ".yaml") (yaml_dump v)
    exact json_to_yaml_xt_skip jload source _ c v _ hsuf hsrc1 hj hdest1

/-- Witness for C3: converting `a.json` twice without force; the second
run is a skip that changes nothing. -/
theorem c3_skip_policy_witness :
    (Path.mk [] "a.json").suffix = ".json" ∧
    lookupFS [(⟨[], "a.json"⟩, Entry.file "j")] ⟨[], "a.json"⟩ = some (Entry.file "j") ∧
    lookupFS [(⟨[], "a.json"⟩, Entry.file "j")] ((Path.mk [] "a.json").with_suffix ".yaml")
      = none ∧
    (∃ s1, json_to_yaml (fun _ => some Json.null) false ⟨[], "a.json"⟩
          ⟨[(⟨[], "a.json"⟩, Entry.file "j")], []⟩ = .ok s1 ∧
      s1.fs = setFS [(⟨[], "a.json"⟩, Entry.file "j")]
          ((Path.mk [] "a.json").with_suffix ".yaml") (yaml_dump Json.null) ∧
      json_to_yaml (fun _ => some Json.null) false ⟨[], "a.json"⟩ s1
        = .ok { fs := s1.fs,
                log := s1.log ++ [LogEvent.infoConverting ⟨[], "a.json"⟩
                    ((Path.mk [] "a.json").with_suffix ".yaml"),
                  LogEvent.debugOpenRead ⟨[], "a.json"⟩, LogEvent.debugData Json.null,
                  LogEvent.debugOpenWrite ((Path.mk [] "a.json").with_suffix ".yaml") Mode.xt,
                  LogEvent.warnExists ((Path.mk [] "a.json").with_suffix ".yaml")] }) :=
  ⟨by decide, by decide, by decide,
    (c3_skip_policy (fun _ => some Json.null) ⟨[], "a.json"⟩
      ⟨[(⟨[], "a.json"⟩, Entry.file "j")], []⟩ "j" Json.null
      (by decide) (by decide) rfl).2 (by decide)⟩

/-- Claim C9: whatever the outcome (write, skip or escaped exception)
and whatever the force flag, a per-file conversion leaves every path
other than the derived `.yaml` destination unchanged — in particular the
source file itself — and every file opened for writing is the derived
destination. -/
theorem c9_source_untouched (jload : String → Option Json) (force : Bool) (source : Path)
    (s : St) :
    (∀ q : Path, q ≠ source.with_suffix ".yaml" →
      lookupFS (outSt (json_to_yaml jload force source s)).fs q = lookupFS s.fs q) ∧
    lookupFS (outSt (json_to_yaml jload force source s)).fs source = lookupFS s.fs source ∧
    (∀ p m, LogEvent.debugOpenWrite p m ∈ (outSt (json_to_yaml jload force source s)).log →
      LogEvent.debugOpenWrite p m ∈ s.log ∨ p = source.with_suffix ".yaml") := by
  refine ⟨fun q hq => json_to_yaml_frame_ne jload force source s q hq, ?_,
    json_to_yaml_writes jload force source s⟩
  by_cases hsuf : source.suffix = ".json"
  · exact json_to_yaml_frame_ne jload force source s source (source_ne_dest source hsuf)
  · rcases json_to_yaml_fs_cases jload force source s with h | ⟨hs, _, _⟩
    · rw [h]
    · exact absurd hs hsuf

/-- Witness for C9: converting `a.json` leaves an unrelated `other.txt`
and the source itself untouched. -/
theorem c9_source_untouched_witness :
    (Path.mk [] "other.txt" ≠ (Path.mk [] "a.json").with_suffix ".yaml") ∧
    lookupFS (outSt (json_to_yaml (fun _ => some Json.null) false ⟨[], "a.json"⟩
        ⟨[(⟨[], "a.json"⟩, Entry.file "j"), (⟨[], "other.txt"⟩, Entry.file "o")], []⟩)).fs
      ⟨[], "other.txt"⟩
      = lookupFS [(⟨[], "a.json"⟩, Entry.file "j"), (⟨[], "other.txt"⟩, Entry.file "o")]
        ⟨[], "other.txt"⟩ ∧
    lookupFS (outSt (json_to_yaml (fun _ => some Json.null) false ⟨[], "a.json"⟩
        ⟨[(⟨[], "a.json"⟩, Entry.file "j"), (⟨[], "other.txt"⟩, Entry.file "o")], []⟩)).fs
      ⟨[], "a.json"⟩
      = lookupFS [(⟨[], "a.json"⟩, Entry.file "j"), (⟨[], "other.txt"⟩, Entry.file "o")]
        ⟨[], "a.json"⟩ :=
  ⟨by decide,
    (c9_source_untouched (fun _ => some Json.null) false ⟨[], "a.json"⟩
      ⟨[(⟨[], "a.json"⟩, Entry.file "j"), (⟨[], "other.txt"⟩, Entry.file "o")], []⟩).1
      ⟨[], "other.txt"⟩ (by decide),
    (c9_source_untouched (fun _ => some Json.null) false ⟨[], "a.json"⟩
      ⟨[(⟨[], "a.json"⟩, Entry.file "j"), (⟨[], "other.txt"⟩, Entry.file "o")], []⟩).2.1⟩

/-- Claim C10: a direct file argument whose entire name is `.json` has
an empty suffix, so it is skipped with a wrong-extension warning: it is
never parsed and no destination is created. -/
theorem c10_dotjson_skipped (jload : String → Option Json) (N : Nat) (force : Bool)
    (p : Path) (hp : p.parent.length ≤ N) (s : StB N)
    (hname : p.name = ".json") (hfile : isFile s.1.fs p = true) :
    p.suffix = "" ∧
    (run_source jload N force p hp s).map Subtype.val
      = .ok { fs := s.1.fs, log := s.1.log ++ [LogEvent.warnWrongExt p] } := by
  have hs := dotjson_suffix p hname
  refine ⟨hs, ?_⟩
  rw [run_source_file jload N force p hp s hfile,
    json_to_yaml_skip jload force p s.1 (by rw [hs]; decide)]
  rfl

/-- Witness for C10: a file literally named `.json` is skipped. -/
theorem c10_dotjson_skipped_witness :
    (Path.mk [] ".json").name = ".json" ∧
    isFile [(⟨[], ".json"⟩, Entry.file "x")] ⟨[], ".json"⟩ = true ∧
    ((Path.mk [] ".json").suffix = "" ∧
      (run_source (fun _ => some Json.null) 0 false ⟨[], ".json"⟩ (by decide)
          ⟨⟨[(⟨[], ".json"⟩, Entry.file "x")], []⟩, by decide⟩).map Subtype.val
        = .ok { fs := [(⟨[], ".json"⟩, Entry.file "x")],
                log := [LogEvent.warnWrongExt ⟨[], ".json"⟩] }) :=
  ⟨rfl, by decide,
    c10_dotjson_skipped (fun _ => some Json.null) 0 false ⟨[], ".json"⟩ (by decide)
      ⟨⟨[(⟨[], ".json"⟩, Entry.file "x")], []⟩, by decide⟩ rfl (by decide)⟩

/-- Claim C6 counterexample: a sub-directory whose own name matches
`*.json` IS descended into.  With directory `D` containing a
sub-directory `sub.json` which contains `a.json`, running the program on
`D` creates `a.yaml` inside the sub-directory — refuting "sub-directories
are never descended into". -/
theorem c6_counterexample :
    lookupFS (main (fun _ => some Json.null) false [⟨[], "D"⟩]
        ⟨[(⟨[], "D"⟩, Entry.dir), (⟨["D"], "sub.json"⟩, Entry.dir),
          (⟨["D", "sub.json"], "a.json"⟩, Entry.file "x")], [], "", false, ""⟩).2.fs
      ⟨["D", "sub.json"], "a.yaml"⟩
      = some (Entry.file (yaml_dump Json.null)) := by
  simp +decide [main, App.run, run_sources, run_sources_loop, run_source, run_list,
    json_to_yaml, load_json_file, write_yaml_file_if_not_exists_and_not_forced,
    write_yaml_file, childrenJson, isFile, isDir, lookupFS, setFS, addLog, addLogW,
    boundN, Path.suffix, Path.with_suffix, suffixChars, rIdx, outW]

/-- Claim C6 (amended): a directory argument is scanned non-recursively
for its immediate `*.json`-matching entries; when none of the matching
entries is itself a directory, no path outside the directory is touched
— but an entry that is a directory with a `*.json`-matching name is
descended into (see the counterexample). -/
theorem c6_nonrecursive_scan (jload : String → Option Json) (N : Nat) (force : Bool)
    (p : Path) (hp : p.parent.length ≤ N) (s : StB N)
    (hdir : isDir s.1.fs p = true)
    (hfiles : ∀ q ∈ childrenJson s.1.fs p, isFile s.1.fs q = true) :
    ∀ r : Path, r.parent ≠ p.parent ++ [p.name] →
      lookupFS (outSt ((run_source jload N force p hp s).map Subtype.val)).fs r
        = lookupFS s.1.fs r := by
  intro r hr
  have hnf := isDir_not_isFile s.1.fs p hdir
  have hframe := run_list_files_frame jload N force (p.parent.length + 1)
    (p.parent ++ [p.name]) (childrenJson s.1.fs p)
    (fun q hq => by rw [childrenJson_parent s.1.fs p q hq]; simp)
    (fun q hq => by
      obtain ⟨e, he, heq⟩ := childrenJson_mem s.1.fs p q hq
      rw [← heq]
      exact s.2 e he) s
    (fun q hq => childrenJson_parent s.1.fs p q hq)
    hfiles
    (fun q hq => childrenJson_endswith s.1.fs p q hq) r hr
  rw [run_source, if_neg (by rw [hnf]; exact fun h => Bool.false_ne_true h), dif_pos hdir]
  exact hframe

/-- Witness for C6 (amended): a directory whose `*.json` entries are all
regular files; a sibling file outside it is untouched. -/
theorem c6_nonrecursive_scan_witness :
    isDir [(⟨[], "D"⟩, Entry.dir), (⟨["D"], "a.json"⟩, Entry.file "x"),
        (⟨[], "out.txt"⟩, Entry.file "o")] ⟨[], "D"⟩ = true ∧
    lookupFS (outSt ((run_source (fun _ => some Json.null) 1 false ⟨[], "D"⟩ (by decide)
        ⟨⟨[(⟨[], "D"⟩, Entry.dir), (⟨["D"], "a.json"⟩, Entry.file "x"),
          (⟨[], "out.txt"⟩, Entry.file "o")], []⟩, by decide⟩).map Subtype.val)).fs
      ⟨[], "out.txt"⟩
      = lookupFS [(⟨[], "D"⟩, Entry.dir), (⟨["D"], "a.json"⟩, Entry.file "x"),
        (⟨[], "out.txt"⟩, Entry.file "o")] ⟨[], "out.txt"⟩ :=
  ⟨by decide,
    c6_nonrecursive_scan (fun _ => some Json.null) 1 false ⟨[], "D"⟩ (by decide)
      ⟨⟨[(⟨[], "D"⟩, Entry.dir), (⟨["D"], "a.json"⟩, Entry.file "x"),
        (⟨[], "out.txt"⟩, Entry.file "o")], []⟩, by decide⟩
      (by decide) (by decide) ⟨[], "out.txt"⟩ (by decide)⟩

/-- Claim C7: with zero path arguments the program runs in stream mode —
it reads standard input, writes the YAML serialization of the parsed
document to standard output, and creates no files; with one or more path
arguments it runs in file-tree mode and never reads standard input nor
writes standard output. -/
theorem c7_stream_vs_filetree (jload : String → Option Json) (force : Bool)
    (sources : List Path) (w : World) :
    (sources = [] →
      (outW (App.run jload force sources w)).fs = w.fs ∧
      ∀ v, jload w.stdinData = some v →
        App.run jload force sources w
          = .ok { fs := w.fs,
                  log := (if force then w.log ++ [LogEvent.warnForceNoEffect] else w.log)
                    ++ [LogEvent.debugData v],
                  stdinData := w.stdinData, stdinRead := true,
                  stdout := w.stdout ++ yaml_dump v }) ∧
    (sources ≠ [] →
      (outW (App.run jload force sources w)).stdinRead = w.stdinRead ∧
      (outW (App.run jload force sources w)).stdout = w.stdout ∧
      (outW (App.run jload force sources w)).stdinData = w.stdinData) := by
  constructor
  · intro hnil
    subst hnil
    constructor
    · rw [App.run, if_neg (by simp)]
      unfold run_streams
      cases hj : jload w.stdinData with
      | none => cases force <;> simp [hj, outW, addLogW]
      | some v => cases force <;> simp [hj, outW, addLogW]
    · intro v hv
      rw [App.run, if_neg (by simp)]
      unfold run_streams
      cases force <;> simp [hv, addLogW]
  · intro hne
    rw [App.run, if_pos (by simpa [List.length_pos] using hne)]
    cases hr : run_sources jload force sources ⟨w.fs, w.log⟩ with
    | ok s => simp [outW]
    | error e =>
      obtain ⟨e1, e2⟩ := e
      simp [outW]

/-- Witness for C7: stream mode on `{}` stdin, and file mode leaving the
streams untouched. -/
theorem c7_stream_vs_filetree_witness :
    (App.run (fun _ => some (Json.obj [])) false []
        ⟨[], [], "input", false, ""⟩
      = .ok { fs := [], log := [LogEvent.debugData (Json.obj [])],
              stdinData := "input", stdinRead := true,
              stdout := "" ++ yaml_dump (Json.obj []) }) ∧
    (outW (App.run (fun _ => some (Json.obj [])) false [⟨[], "missing"⟩]
        ⟨[], [], "input", false, ""⟩)).stdinRead = false :=
  ⟨((c7_stream_vs_filetree (fun _ => some (Json.obj [])) false []
      ⟨[], [], "input", false, ""⟩).1 rfl).2 (Json.obj []) rfl,
    ((c7_stream_vs_filetree (fun _ => some (Json.obj [])) false [⟨[], "missing"⟩]
      ⟨[], [], "input", false, ""⟩).2 (by decide)).1⟩

/-- Claim C8: the code contradicts the claim.  An invalid source
argument (neither file nor directory) raises `AppError`, which `main`
catches and logs — but `main` then returns normally, so the process
reports exit status 0 to its invoker, not a non-zero status. -/
theorem c8_invalid_source_exits_zero :
    (main (fun _ => some Json.null) false [⟨[], "missing"⟩] ⟨[], [], "", false, ""⟩).1 = 0 ∧
    LogEvent.errorApp ⟨[], "missing"⟩
      ∈ (main (fun _ => some Json.null) false [⟨[], "missing"⟩] ⟨[], [], "", false, ""⟩).2.log := by
  constructor <;>
    simp +decide [main, App.run, run_sources, run_sources_loop, run_source, isFile, isDir,
      lookupFS, addLog, addLogW, boundN]

/-- Claim C2 counterexample: with arguments `[missing, good.json]` where
`missing` does not exist and `good.json` is a valid JSON file, the run
does not crash and the error is logged — but `good.json` is NOT
converted (its destination is never created, the filesystem is
unchanged), refuting "every other valid argument in the same invocation
is still processed and converts successfully". -/
theorem c2_counterexample :
    main (fun _ => some Json.null) false [⟨[], "missing"⟩, ⟨[], "good.json"⟩]
        ⟨[(⟨[], "good.json"⟩, Entry.file "j")], [], "", false, ""⟩
      = (0, ⟨[(⟨[], "good.json"⟩, Entry.file "j")],
          [LogEvent.debugProcessing ⟨[], "missing"⟩, LogEvent.errorApp ⟨[], "missing"⟩],
          "", false, ""⟩) ∧
    lookupFS (main (fun _ => some Json.null) false [⟨[], "missing"⟩, ⟨[], "good.json"⟩]
        ⟨[(⟨[], "good.json"⟩, Entry.file "j")], [], "", false, ""⟩).2.fs
      ⟨[], "good.yaml"⟩ = none := by
  constructor <;>
    simp +decide [main, App.run, run_sources, run_sources_loop, run_source, isFile, isDir,
      lookupFS, addLog, addLogW, boundN]

/-- Claim C2 (amended): an argument that is neither an existing file nor
an existing directory raises `AppError`, which aborts the argument loop:
the arguments before it are processed (reaching state `s1`), the error
is caught at the orchestrator boundary and logged, the run does not
crash (it exits with status 0), and the arguments after the failing one
are abandoned — the outcome does not depend on them. -/
theorem c2_invalid_source_aborts (jload : String → Option Json) (force : Bool)
    (pre post : List Path) (bad : Path) (w : World) (s0 : St) (N : Nat)
    (hs0 : s0 = if force then addLog .infoForcing ⟨w.fs, w.log⟩ else ⟨w.fs, w.log⟩)
    (hN : N = boundN (pre ++ bad :: post) s0.fs)
    (hb : BoundedFS N s0.fs) (hpre : ∀ p ∈ pre, p.parent.length ≤ N)
    (s1 : StB N)
    (h1 : run_sources_loop jload N force pre hpre ⟨s0, hb⟩ = .ok s1)
    (hf : isFile s1.1.fs bad = false) (hd : isDir s1.1.fs bad = false) :
    main jload force (pre ++ bad :: post) w
      = (0, { w with
              fs := s1.val.fs,
              log := s1.val.log ++ [LogEvent.debugProcessing bad, LogEvent.errorApp bad] }) := by
  subst hs0
  subst hN
  have hsplit := run_sources_loop_split jload _ force pre post bad
    (boundN_sources (pre ++ bad :: post) _) hpre ⟨_, boundN_bounded (pre ++ bad :: post) _⟩
    s1 h1 hf hd
  rw [main, App.run, if_pos (by simp)]
  simp only [run_sources]
  rw [hsplit]
  simp [addLog, addLogW, List.append_assoc]

/-- Witness for C2 (amended): a nonexistent first argument aborts the
run before the valid later argument; the process exits 0 with the error
logged. -/
theorem c2_invalid_source_aborts_witness :
    isFile [(⟨[], "good.json"⟩, Entry.file "j")] ⟨[], "missing"⟩ = false ∧
    isDir [(⟨[], "good.json"⟩, Entry.file "j")] ⟨[], "missing"⟩ = false ∧
    main (fun _ => some Json.null) false ([] ++ ⟨[], "missing"⟩ :: [⟨[], "good.json"⟩])
        ⟨[(⟨[], "good.json"⟩, Entry.file "j")], [], "", false, ""⟩
      = (0, ⟨[(⟨[], "good.json"⟩, Entry.file "j")],
          [LogEvent.debugProcessing ⟨[], "missing"⟩, LogEvent.errorApp ⟨[], "missing"⟩],
          "", false, ""⟩) :=
  ⟨by decide, by decide,
    c2_invalid_source_aborts (fun _ => some Json.null) false [] [⟨[], "good.json"⟩]
      ⟨[], "missing"⟩ ⟨[(⟨[], "good.json"⟩, Entry.file "j")], [], "", false, ""⟩
      ⟨[(⟨[], "good.json"⟩, Entry.file "j")], []⟩ 0 rfl (by decide) (by decide)
      (by decide) ⟨⟨[(⟨[], "good.json"⟩, Entry.file "j")], []⟩, by decide⟩ rfl
      (by decide) (by decide)⟩

end Json2Yaml
